import Mathlib

/-!
Verification of the ColossalAI zero initialization context
(`colossalai/zero/init_ctx/init_context.py` and
`colossalai/zero/sharded_param/sharded_tensor.py`) against its
natural-language specification.

The Python code is shallowly embedded: tensors are modelled by their
shape, dtype and device (the payload contents are irrelevant to every
property considered here); Python exceptions are modelled with `Except`;
the mutable interpreter state (class attributes, the global RNG, the
patched fan-in/fan-out routine, the singleton context slot) is passed
explicitly.  Classes of the repository that are referenced by the
sources under verification but whose own source is not part of this
repository snapshot (`ShardedParamV2`, `StatefulTensor`,
`cast_tensor_to_fp16`) are modelled from the specification; each such
definition carries a doc comment saying so.
-/

namespace ColossalAI

/-- Python exception values that the embedded code can raise. -/
inductive PyError where
  | assertionError (msg : String)
  | valueError (msg : String)
  | attributeError (msg : String)
deriving DecidableEq, Repr

/-- The kind of a `torch.device` (its `.type` attribute). -/
inductive DeviceType where
  | cpu
  | cuda
deriving DecidableEq, Repr

/-- A `torch.device`: a device type plus an optional index. -/
structure TorchDevice where
  devType : DeviceType
  index : Option Nat
deriving DecidableEq, Repr

/-- Tensor dtypes that matter to the code under verification. -/
inductive DType where
  | float32
  | float16
  | int64
  | bool_t
deriving DecidableEq, Repr

/-- `Tensor.is_floating_point()`. -/
def DType.isFloatingPoint : DType → Bool
  | .float32 => true
  | .float16 => true
  | _ => false

/-- A torch tensor, modelled by the attributes the code reads: shape,
dtype and device.  The numeric contents play no role in any claim. -/
structure Tensor where
  shape : List Nat
  dtype : DType
  device : TorchDevice
deriving DecidableEq, Repr

/-- `Tensor.numel()`: the product of the dimensions. -/
def Tensor.numel (t : Tensor) : Nat := t.shape.prod

/-- `Tensor.to(device)`. -/
def Tensor.to (t : Tensor) (d : TorchDevice) : Tensor := { t with device := d }

/-- `Tensor.half()`: cast to float16. -/
def Tensor.half (t : Tensor) : Tensor := { t with dtype := DType.float16 }

/-- Modelled from the spec: the lifecycle state tag of a
`StatefulTensor` (`tensorful_state.py` is not part of this snapshot).
The spec describes "an enum over phases such as held, in-compute,
holding-gradient"; the code under verification only ever passes the
default `HOLD`. -/
inductive TensorState where
  | HOLD
  | COMPUTE
  | HOLD_GRAD
deriving DecidableEq, Repr

/-- `ShardedTensor` (from `sharded_tensor.py`): a `StatefulTensor`
(payload plus lifecycle state, the base class is modelled from the
spec) together with the origin shape / numel / dtype captured at
construction and the `_is_sharded` flag. -/
structure ShardedTensor where
  payload : Tensor
  state : TensorState
  origin_shape : List Nat
  origin_numel : Nat
  origin_dtype : DType
  is_sharded : Bool
deriving DecidableEq, Repr

/-- `ShardedTensor.__init__(tensor, state)`: store the payload and
state, capture `tensor.shape`, `tensor.numel()`, `tensor.dtype` as the
origin metadata, and start with `_is_sharded = False`. -/
def ShardedTensor.init (tensor : Tensor) (state : TensorState) : ShardedTensor :=
  { payload := tensor
    state := state
    origin_shape := tensor.shape
    origin_numel := tensor.numel
    origin_dtype := tensor.dtype
    is_sharded := false }

/-- An operation subsequently applied to a `ShardedTensor`: the
`is_sharded` setter is from `sharded_tensor.py`; replacing the payload
or the lifecycle state is the `StatefulTensor` surface, modelled from
the spec (the strategy "mutates each entity's payload in place"). -/
inductive ShardedTensorOp where
  | setIsSharded (flag : Bool)
  | setPayload (t : Tensor)
  | setState (s : TensorState)
deriving DecidableEq, Repr

/-- Apply one operation to a `ShardedTensor`.  None of the operations
recompute the origin metadata; they only write the field they name. -/
def ShardedTensor.applyOp (st : ShardedTensor) : ShardedTensorOp → ShardedTensor
  | .setIsSharded flag => { st with is_sharded := flag }
  | .setPayload t => { st with payload := t }
  | .setState s => { st with state := s }

/-- Apply a sequence of operations left to right. -/
def ShardedTensor.applyOps (st : ShardedTensor) (ops : List ShardedTensorOp) : ShardedTensor :=
  ops.foldl ShardedTensor.applyOp st

/-- `ZeroContextConfig`: the three configuration fields. -/
structure ZeroContextConfig where
  target_device : TorchDevice
  is_replicated : Bool
  shard_param : Bool
deriving DecidableEq, Repr

/-- `ZeroContextConfig.__init__(target_device, replicated, shard_param)`:
first asserts `replicated` when `shard_param` is set, then asserts that
the target device is a cuda device when the config is replicated and
non-sharded, and finally stores the three fields. -/
def ZeroContextConfig.init (target_device : TorchDevice) (replicated : Bool)
    (shard_param : Bool) : Except PyError ZeroContextConfig :=
  if shard_param ∧ ¬ replicated then
    Except.error (PyError.assertionError "Non-replicated parameters can't be sharded.")
  else if replicated ∧ ¬ shard_param ∧ target_device.devType ≠ DeviceType.cuda then
    Except.error (PyError.assertionError "Replicated no-shard paramters should locate in cuda.")
  else
    Except.ok { target_device := target_device, is_replicated := replicated, shard_param := shard_param }

/-- The keyword arguments forwarded by `hijack_context_config` to
`ZeroContextConfig(**kwargs)`. -/
structure HijackKwargs where
  target_device : TorchDevice
  replicated : Bool
  shard_param : Bool
deriving DecidableEq, Repr

/-- What the caller's nested scope (the body of the `with` statement)
does: terminate normally, or raise an exception. -/
inductive BodyBehavior where
  | ok
  | raise (e : PyError)
deriving DecidableEq, Repr

/-- Outcome of running a hijack scope: the config of the current
context after the scope (None when no context is current), and the
exception propagating out of the scope, if any. -/
structure HijackOutcome where
  final_config : Option ZeroContextConfig
  raised : Option PyError
deriving DecidableEq, Repr

/-- `ZeroContextMgr.hijack_context_config(**kwargs)`, run against a
current-context slot holding `ctx` (the config of the current
`ZeroInitContext`, or `none`) and a nested scope behaving as `body`.
Faithful to the `@contextlib.contextmanager` generator: when a context
is current, the substitute config is installed before the `yield`; the
restoring assignment after the `yield` is reached only when the nested
scope terminates normally, because the generator has no
`try`/`finally` — an exception thrown into the generator at the
`yield` propagates before the assignment runs. -/
def hijack_context_config (ctx : Option ZeroContextConfig) (kwargs : HijackKwargs)
    (body : BodyBehavior) : HijackOutcome :=
  match ctx with
  | none =>
      -- `if self.current_context is None: yield` — pure pass-through.
      match body with
      | .ok => { final_config := none, raised := none }
      | .raise e => { final_config := none, raised := some e }
  | some old_config =>
      match ZeroContextConfig.init kwargs.target_device kwargs.replicated kwargs.shard_param with
      | .error e =>
          -- `ZeroContextConfig(**kwargs)` raised before the assignment:
          -- the config is untouched and the body never runs.
          { final_config := some old_config, raised := some e }
      | .ok new_config =>
          match body with
          | .ok => { final_config := some old_config, raised := none }
          | .raise e => { final_config := some new_config, raised := some e }

/-- Modelled from the spec: `ShardedParamV2` (its module
`sharded_param.py` is not part of this snapshot).  Per the spec it
wraps the parameter's payload in a ShardedTensorEntity
(`sharded_data_tensor`) and may retain a now-redundant transient torch
payload that `remove_torch_payload` releases; `param_is_sharded`
reports whether the wrapped tensor is sharded. -/
structure ShardedParamV2 where
  sharded_data_tensor : ShardedTensor
  has_torch_payload : Bool
deriving DecidableEq, Repr

/-- Modelled from the spec: `ShardedParamV2(param, rm_torch_payload)`
wraps `param.data` in a fresh `ShardedTensor` (state `HOLD`); with
`rm_torch_payload=False` the redundant torch payload is retained. -/
def ShardedParamV2.init (data : Tensor) (rm_torch_payload : Bool) : ShardedParamV2 :=
  { sharded_data_tensor := ShardedTensor.init data TensorState.HOLD
    has_torch_payload := ¬ rm_torch_payload }

/-- Modelled from the spec: `param_is_sharded` of `ShardedParamV2`
reports the `is_sharded` flag of the wrapped tensor. -/
def ShardedParamV2.param_is_sharded (a : ShardedParamV2) : Bool :=
  a.sharded_data_tensor.is_sharded

/-- Modelled from the spec: `remove_torch_payload` releases the
redundant transient payload retained by the wrapping step. -/
def ShardedParamV2.remove_torch_payload (a : ShardedParamV2) : ShardedParamV2 :=
  { a with has_torch_payload := false }

/-- An `nn.Parameter` as the context sees it: its data tensor, an
optional gradient tensor, and the two attributes the context attaches
dynamically (`is_replicated` and `colo_attr`), absent before they are
first assigned. -/
structure PyParam where
  data : Tensor
  grad : Option Tensor
  is_replicated : Option Bool
  colo_attr : Option ShardedParamV2
deriving DecidableEq, Repr

/-- `PyParam.numel()` delegates to the data tensor. -/
def PyParam.numel (p : PyParam) : Nat := p.data.numel

/-- An `nn.Module` as the hook sees it: its directly owned
(non-recursive) parameters and buffers. -/
structure PyModule where
  params : List PyParam
  buffers : List Tensor
deriving DecidableEq, Repr

/-- The shard strategy collaborator, modelled from the spec (§6): it
"mutates each entity's payload in place to its local partition" — an
arbitrary function from the full payload to the local partition. -/
def BaseShardStrategy : Type := Tensor → Tensor

/-- Modelled from the spec (§6): `shard_strategy.shard([entity], group)`
replaces the entity's payload with its local partition and sets
`is_sharded = true`. -/
def BaseShardStrategy.shardOne (strat : BaseShardStrategy) (st : ShardedTensor) : ShardedTensor :=
  { st with payload := strat st.payload, is_sharded := true }

/-- `half_fn` from `_post_init_method`: cast to half precision when the
tensor is floating point, otherwise leave it unchanged. -/
def half_fn (t : Tensor) : Tensor :=
  if t.dtype.isFloatingPoint then t.half else t

/-- Modelled from the spec: `cast_tensor_to_fp16`
(`sharded_model/_utils.py` is not part of this snapshot) casts a
floating tensor to half precision and leaves integer/boolean tensors
unchanged ("losslessly for integer/boolean tensors and narrowing for
floating tensors"). -/
def cast_tensor_to_fp16 (t : Tensor) : Tensor :=
  if t.dtype.isFloatingPoint then t.half else t

/-- The per-scope bookkeeping of `ZeroInitContext` mutated by the
hook: the intercepted-parameter list and the model element counter
(`model_numel_tensor`, a one-element accumulator, modelled as a
natural number). -/
structure PostInitState where
  param_list : List PyParam
  model_numel : Nat
deriving DecidableEq, Repr

/-- The body of the parameter loop of `_post_init_method` for one
parameter: skip a parameter already carrying `colo_attr`; otherwise
add its numel to the counter, mark replication, cast data and gradient
to half, move them to the target device, attach a `ShardedParamV2`
(retaining the torch payload), shard the wrapped tensor and repoint
`param.data` at the shard payload when `shard_param` is set, and
append the parameter to `param_list`. -/
def processParam (cfg : ZeroContextConfig) (strat : BaseShardStrategy)
    (s : PostInitState) (p : PyParam) : PostInitState × PyParam :=
  if p.colo_attr.isSome then
    (s, p)
  else
    let s1 : PostInitState := { s with model_numel := s.model_numel + p.numel }
    let p1 : PyParam := { p with is_replicated := some cfg.is_replicated }
    let p2 : PyParam := { p1 with data := half_fn p1.data, grad := p1.grad.map half_fn }
    let p3 : PyParam := { p2 with data := p2.data.to cfg.target_device,
                                  grad := p2.grad.map (Tensor.to · cfg.target_device) }
    let attr : ShardedParamV2 := ShardedParamV2.init p3.data false
    let (attr2, newData) :=
      if cfg.shard_param then
        let sdt := strat.shardOne attr.sharded_data_tensor
        ({ attr with sharded_data_tensor := sdt }, sdt.payload)
      else (attr, p3.data)
    let p4 : PyParam := { p3 with colo_attr := some attr2, data := newData }
    ({ s1 with param_list := s1.param_list ++ [p4] }, p4)

/-- The parameter loop of `_post_init_method`: process the directly
owned parameters in order, threading the bookkeeping state. -/
def processParams (cfg : ZeroContextConfig) (strat : BaseShardStrategy) :
    List PyParam → PostInitState → List PyParam × PostInitState
  | [], s => ([], s)
  | p :: ps, s =>
      let r1 := processParam cfg strat s p
      let r2 := processParams cfg strat ps r1.1
      (r1.2 :: r2.1, r2.2)

/-- The buffer loop of `_post_init_method`: move each directly owned
buffer to the current cuda device and cast it to fp16. -/
def processBuffer (cur_cuda : Nat) (b : Tensor) : Tensor :=
  cast_tensor_to_fp16 (b.to { devType := DeviceType.cuda, index := some cur_cuda })

/-- `ZeroInitContext._post_init_method(module)`: run the parameter
loop over the module's own parameters and the buffer loop over its own
buffers.  `cfg` is `self.config` at hook time, `strat` the configured
shard strategy, `cur_cuda` `torch.cuda.current_device()`. -/
def _post_init_method (cfg : ZeroContextConfig) (strat : BaseShardStrategy)
    (cur_cuda : Nat) (m : PyModule) (s : PostInitState) : PyModule × PostInitState :=
  let r := processParams cfg strat m.params s
  ({ params := r.1, buffers := m.buffers.map (processBuffer cur_cuda) }, r.2)

/-- The argument handed to a fan-in/fan-out routine: a tensor together
with whether it is an `nn.Parameter` instance and the `colo_attr` it
may carry. -/
structure ParamTensor where
  tensor : Tensor
  is_param : Bool
  colo_attr : Option ShardedParamV2
deriving DecidableEq, Repr

/-- `ZeroInitContext.calc_fanin_fanout(tensor)`: assert the input is a
parameter; take the physical shape unless the tensor carries a sharded
`colo_attr`, in which case take `origin_shape`; fail on fewer than two
dimensions; otherwise return
`(shape[1] * prod(shape[2:]), shape[0] * prod(shape[2:]))`. -/
def calc_fanin_fanout (t : ParamTensor) : Except PyError (Nat × Nat) :=
  if ¬ t.is_param then
    Except.error (PyError.assertionError "Sharded tensor initilization is only allowed for paramters")
  else
    let tensor_shape :=
      match t.colo_attr with
      | none => t.tensor.shape
      | some a =>
          if ¬ a.param_is_sharded then t.tensor.shape
          else a.sharded_data_tensor.origin_shape
    match tensor_shape with
    | n0 :: n1 :: rest => Except.ok (n1 * rest.prod, n0 * rest.prod)
    | _ => Except.error (PyError.valueError "Fan in and fan out can not be computed for tensor with fewer than 2 dimensions")

/-- The fan-in/fan-out of a logical shape as the claims state it
directly: `fan_in = shape[1] * prod(shape[2:])`,
`fan_out = shape[0] * prod(shape[2:])`, a dimension error on fewer
than two dimensions.  This is the spec-side definition used to compare
`calc_fanin_fanout` against. -/
def specFanInFanOut (shape : List Nat) : Except PyError (Nat × Nat) :=
  match shape with
  | n0 :: n1 :: rest => Except.ok (n1 * rest.prod, n0 * rest.prod)
  | _ => Except.error (PyError.valueError "Fan in and fan out can not be computed for tensor with fewer than 2 dimensions")

/-- Modelled from the spec: the library routine
`torch.nn.init._calculate_fan_in_and_fan_out` that the context
replaces.  It accepts any tensor (no parameter check) and computes
fan-in/fan-out from the physical shape, failing on fewer than two
dimensions. -/
def torch_calculate_fan_in_and_fan_out (t : ParamTensor) : Except PyError (Nat × Nat) :=
  match t.tensor.shape with
  | n0 :: n1 :: rest => Except.ok (n1 * rest.prod, n0 * rest.prod)
  | _ => Except.error (PyError.valueError "Fan in and fan out can not be computed for tensor with fewer than 2 dimensions")

/-- Identity of the function object installed in the
`nn.init._calculate_fan_in_and_fan_out` slot. -/
inductive FaninRoutine where
  | torchDefault
  | zeroCtxSubstitute
  | other (n : Nat)
deriving DecidableEq, Repr

/-- The ambient interpreter state the context perturbs and must
restore: the fan-in/fan-out slot and the host and accelerator RNG
states (each RNG state abstracted as a natural number; bit-for-bit
equality of states is equality of these numbers). -/
structure TorchGlobal where
  fanin_fanout_routine : FaninRoutine
  cpu_rng : Nat
  cuda_rng : Nat
deriving DecidableEq, Repr

/-- The RNG state reached by `torch.manual_seed(s)` (which seeds both
the host and the accelerator generator). -/
def rngStateOfSeed (s : Nat) : Nat := s

/-- The per-instance fields of `ZeroInitContext` that the enter/exit
callbacks read and write: the config, the seed, the hook bookkeeping,
and the three snapshots taken at entry (absent before entry). -/
structure ZeroInitCtxState where
  config : ZeroContextConfig
  seed : Nat
  books : PostInitState
  nn_fanin_fanout : Option FaninRoutine
  cpu_rng_state : Option Nat
  cuda_rng_state : Option Nat
deriving DecidableEq, Repr

/-- `ZeroInitContext._pre_context_exec()`: save the current
fan-in/fan-out routine and install the substitute; snapshot the host
and accelerator RNG states; then seed the generators with
`seed + (seed + 1) * rank`. -/
def _pre_context_exec (rank : Nat) (st : ZeroInitCtxState) (g : TorchGlobal) :
    ZeroInitCtxState × TorchGlobal :=
  let st1 := { st with nn_fanin_fanout := some g.fanin_fanout_routine
                       cpu_rng_state := some g.cpu_rng
                       cuda_rng_state := some g.cuda_rng }
  let offset := st.seed + 1
  let newState := rngStateOfSeed (st.seed + offset * rank)
  (st1, { g with fanin_fanout_routine := FaninRoutine.zeroCtxSubstitute
                 cpu_rng := newState
                 cuda_rng := newState })

/-- A `dist.broadcast` call recorded during `_post_context_exec`. -/
structure BroadcastEvent where
  tensor : Tensor
  src : Nat
deriving DecidableEq, Repr

/-- The body of the broadcast loop of `_post_context_exec` for one
parameter: assert the parameter carries `colo_attr`; when the wrapped
tensor is not sharded and the parameter is marked replicated, record a
broadcast of `param.data` from `src_rank`; in every case release the
redundant torch payload.  Reading `param.is_replicated` is
short-circuited away when the tensor is sharded, exactly as in the
Python conjunction. -/
def broadcastStep (src_rank : Nat) (p : PyParam) :
    Except PyError (PyParam × Option BroadcastEvent) :=
  match p.colo_attr with
  | none => Except.error (PyError.assertionError "param has no colo_attr")
  | some attr =>
      if attr.param_is_sharded then
        Except.ok ({ p with colo_attr := some attr.remove_torch_payload }, none)
      else
        match p.is_replicated with
        | none => Except.error (PyError.attributeError "is_replicated")
        | some r =>
            Except.ok ({ p with colo_attr := some attr.remove_torch_payload },
                       if r then some { tensor := p.data, src := src_rank } else none)

/-- The broadcast loop of `_post_context_exec` over `param_list`,
propagating the first failure. -/
def broadcastLoop (src_rank : Nat) :
    List PyParam → Except PyError (List (PyParam × Option BroadcastEvent))
  | [] => Except.ok []
  | p :: ps =>
      match broadcastStep src_rank p with
      | Except.error e => Except.error e
      | Except.ok r =>
          match broadcastLoop src_rank ps with
          | Except.error e => Except.error e
          | Except.ok rs => Except.ok (r :: rs)

/-- `ZeroInitContext._post_context_exec()`: take the first rank of the
data-parallel group as broadcast source, run the broadcast/release
loop over `param_list`, discard `param_list`, then restore the
fan-in/fan-out routine and both RNG states from the entry snapshots.
`dp_ranks` is `gpc.get_ranks_in_group(ParallelMode.DATA)`; indexing an
empty rank list fails as in Python. -/
def _post_context_exec :
    List Nat → ZeroInitCtxState → TorchGlobal →
    Except PyError (ZeroInitCtxState × TorchGlobal × List BroadcastEvent)
  | [], _, _ => Except.error (PyError.valueError "list index out of range")
  | src_rank :: _, st, g =>
      match broadcastLoop src_rank st.books.param_list with
      | Except.error e => Except.error e
      | Except.ok results =>
          match st.nn_fanin_fanout, st.cpu_rng_state, st.cuda_rng_state with
          | some fr, some crs, some curs =>
              Except.ok ({ st with books := { st.books with param_list := [] } },
                         { g with fanin_fanout_routine := fr, cpu_rng := crs, cuda_rng := curs },
                         (results.filterMap (fun r => r.2)))
          | _, _, _ => Except.error (PyError.attributeError "missing entry snapshot")

/-! ## The constructor interceptor (`InsertPostInitMethodToModuleSubClasses`)

The live class hierarchy is embedded explicitly: classes are numbered,
class `0` is `torch.nn.Module`, and every class has a parent with a
smaller number (a Python class can only subclass classes that already
exist).  The only class attributes the interceptor touches are
`__init__` and `_old_init`; both are own-attributes resolved by
walking the parent chain, exactly like Python attribute lookup on a
single-inheritance hierarchy.  Constructor function objects are
represented syntactically: `moduleInit` is `Module.__init__`,
`defInit c` the `__init__` defined in class `c`'s body, and
`wrapped f` the closure `preprocess_after(f)` that runs `f` and then
fires the post-init hook. -/

/-- A constructor function object. -/
inductive InitFn where
  | moduleInit
  | defInit (c : Nat)
  | wrapped (f : InitFn)
deriving DecidableEq, Repr

/-- `wrapped` is the only constructor form that fires the hook: an
init function is clean when no wrapper occurs anywhere in it, so
invoking it (and any super-constructor it dispatches to, itself looked
up among clean effective inits) runs no wrap logic. -/
def InitFn.isClean : InitFn → Bool
  | .moduleInit => true
  | .defInit _ => true
  | .wrapped _ => false

/-- The own attributes of one class that the interceptor reads or
writes: the class's own `__init__` (absent when inherited) and its own
`_old_init`. -/
structure ClassAttrs where
  initAttr : Option InitFn
  oldInitAttr : Option InitFn
deriving DecidableEq, Repr

/-- The own-attribute table of the whole hierarchy. -/
def AttrMap : Type := Nat → ClassAttrs

/-- Write the own attributes of one class. -/
def AttrMap.set (m : AttrMap) (c : Nat) (a : ClassAttrs) : AttrMap :=
  fun x => if x = c then a else m x

/-- The class registry: how many classes exist and each class's
parent.  Parents precede their subclasses in declaration order, which
is what makes Python attribute lookup terminate. -/
structure ClassTable where
  count : Nat
  parent : Nat → Nat
  hparent : ∀ c, c ≠ 0 → parent c < c

/-- `cls.__subclasses__()` of class `c`: the registered classes whose
parent is `c`, in declaration order. -/
def subclassesOf (tbl : ClassTable) (c : Nat) : List Nat :=
  (List.range tbl.count).filter (fun s => decide (s ≠ 0 ∧ tbl.parent s = c))

/-- The order in which `_substitute_init_recursively(cls, func)`
applies `func`: for each subclass, first its whole subtree, then the
subclass itself (`func` is never applied to the root argument).  The
fuel argument only serves termination; `tbl.count` always suffices
because parents strictly precede children. -/
def traversalGo (tbl : ClassTable) : Nat → Nat → List Nat
  | 0, _ => []
  | fuel + 1, c => (subclassesOf tbl c).flatMap (fun s => traversalGo tbl fuel s ++ [s])

/-- The full application order of `_substitute_init_recursively`
starting from class `c`. -/
def traversalOrder (tbl : ClassTable) (c : Nat) : List Nat :=
  traversalGo tbl tbl.count c

/-- `_substitute_init_recursively(cls, func)` as the fold of `func`
over the traversal order. -/
def _substitute_init_recursively (tbl : ClassTable) (f : Nat → AttrMap → AttrMap)
    (c : Nat) (m : AttrMap) : AttrMap :=
  (traversalOrder tbl c).foldl (fun m s => f s m) m

/-- Python attribute lookup of `cls.__init__` along the parent chain.
The fuel argument only serves termination; starting it at `c` itself
always suffices because parents have strictly smaller numbers. -/
def getInitGo (parent : Nat → Nat) (m : AttrMap) : Nat → Nat → InitFn
  | c, 0 =>
      match (m c).initAttr with
      | some f => f
      | none => InitFn.moduleInit
  | c, fuel + 1 =>
      match (m c).initAttr with
      | some f => f
      | none =>
          if c = 0 then InitFn.moduleInit
          else getInitGo parent m (parent c) fuel

/-- The effective `cls.__init__` of class `c`. -/
def getInit (tbl : ClassTable) (m : AttrMap) (c : Nat) : InitFn :=
  getInitGo tbl.parent m c c

/-- Python attribute lookup of `cls._old_init` along the parent chain;
`none` models the `AttributeError` of a completely absent attribute. -/
def getOldInitGo (parent : Nat → Nat) (m : AttrMap) : Nat → Nat → Option InitFn
  | c, 0 =>
      match (m c).oldInitAttr with
      | some f => some f
      | none => none
  | c, fuel + 1 =>
      match (m c).oldInitAttr with
      | some f => some f
      | none =>
          if c = 0 then none
          else getOldInitGo parent m (parent c) fuel

/-- The effective `cls._old_init` of class `c`, when any. -/
def getOldInit (tbl : ClassTable) (m : AttrMap) (c : Nat) : Option InitFn :=
  getOldInitGo tbl.parent m c c

/-- `_enable_class(cls)`: `cls._old_init = cls.__init__;`
`cls.__init__ = preprocess_after(cls.__init__)` — both reads resolve
the same effective init, then both own attributes are written. -/
def _enable_class (tbl : ClassTable) (c : Nat) (m : AttrMap) : AttrMap :=
  let e := getInit tbl m c
  AttrMap.set m c { initAttr := some (InitFn.wrapped e), oldInitAttr := some e }

/-- `_disable_class(cls)`: `cls.__init__ = cls._old_init`, an
`AttributeError` when no class on the chain carries `_old_init`.  The
`_old_init` attribute itself is not removed. -/
def _disable_class (tbl : ClassTable) (c : Nat) (m : AttrMap) : Except PyError AttrMap :=
  match getOldInit tbl m c with
  | none => Except.error (PyError.attributeError "_old_init")
  | some f => Except.ok (AttrMap.set m c { initAttr := some f, oldInitAttr := (m c).oldInitAttr })

/-- The interpreter state relevant to the interceptor: the class
registry, the own-attribute table, and whether the wrapping
`__init_subclass__` hook is currently installed on the root class. -/
structure World where
  tbl : ClassTable
  attrs : AttrMap
  hooked : Bool

/-- Register one new class with parent `p`: its id is the next free
number.  (A Python class can only subclass an existing class, so `p`
is clamped to the root for out-of-range values, which never arise in
any statement below.) -/
def extendTable (tbl : ClassTable) (p : Nat) : ClassTable where
  count := tbl.count + 1
  parent := fun x => if x = tbl.count then (if p < tbl.count then p else 0) else tbl.parent x
  hparent := by
    intro x hx
    by_cases hxc : x = tbl.count
    · subst hxc
      simp only [if_pos rfl]
      by_cases hp : p < tbl.count
      · simp only [if_pos hp]; exact hp
      · simp only [if_neg hp]; exact Nat.pos_of_ne_zero hx
    · simp only [if_neg hxc]; exact tbl.hparent x hx

/-- Declaring a class while the scope may be active: create the class
(with or without an `__init__` of its own in its body, and with no
`_old_init`), then, when the interceptor's `__init_subclass__`
replacement is installed, run `_init_subclass`:
`cls.__init__ = preprocess_after(cls.__init__)` — note that it does
not save `cls._old_init`. -/
def declareClass (w : World) (p : Nat) (hasOwnInit : Bool) : World :=
  let c := w.tbl.count
  let tbl1 := extendTable w.tbl p
  let m1 := AttrMap.set w.attrs c
      { initAttr := if hasOwnInit then some (InitFn.defInit c) else none
        oldInitAttr := none }
  let m2 :=
    if w.hooked then
      AttrMap.set m1 c
        { initAttr := some (InitFn.wrapped (getInit tbl1 m1 c)), oldInitAttr := none }
    else m1
  { tbl := tbl1, attrs := m2, hooked := w.hooked }

/-- Run a sequence of class declarations. -/
def declareAll (w : World) : List (Nat × Bool) → World
  | [] => w
  | (p, b) :: rest => declareAll (declareClass w p b) rest

/-- The class-patching part of `__enter__`: enable every current
strict descendant of the root bottom-up, then install the
`__init_subclass__` replacement on the root. -/
def interceptorEnter (w : World) : World :=
  { tbl := w.tbl
    attrs := _substitute_init_recursively w.tbl (fun c m => _enable_class w.tbl c m) 0 w.attrs
    hooked := true }

/-- The `_disable_class` pass of `__exit__` over a given order,
propagating the first `AttributeError`. -/
def disableFold (tbl : ClassTable) : List Nat → AttrMap → Except PyError AttrMap
  | [], m => Except.ok m
  | c :: rest, m => do
      let m1 ← _disable_class tbl c m
      disableFold tbl rest m1

/-- One step of Python attribute lookup: a non-root class defers to
its parent. -/
def parentStepTo (parent : Nat → Nat) (x a : Nat) : Prop := x ≠ 0 ∧ parent x = a

/-- `a` is a proper ancestor of `x` in the hierarchy. -/
def AncOf (parent : Nat → Nat) (x a : Nat) : Prop :=
  Relation.TransGen (parentStepTo parent) x a

/-- The class-patching part of `__exit__`: disable every strict
descendant of the root present at exit time (in the same recursive
order), then restore the original `__init_subclass__`.  `__exit__`
runs this identically on the normal and on the exceptional exit path —
the saved exception is only re-raised afterwards. -/
def interceptorExit (w : World) : Except PyError World := do
  let m ← disableFold w.tbl (traversalOrder w.tbl 0) w.attrs
  Except.ok { tbl := w.tbl, attrs := m, hooked := false }

/-! ## Claim C1: the hijack scope -/

/-- A concrete valid config of a current context: sharded replicated,
target cuda:0. -/
def hijackDemoOldConfig : ZeroContextConfig :=
  { target_device := { devType := DeviceType.cuda, index := some 0 }
    is_replicated := true
    shard_param := true }

/-- Concrete valid overrides passed to the hijack scope (those of
`no_shard_zero_context(is_replicated=False)`). -/
def hijackDemoKwargs : HijackKwargs :=
  { target_device := { devType := DeviceType.cuda, index := some 0 }
    replicated := false
    shard_param := false }

/-- The substitute config the overrides build. -/
def hijackDemoNewConfig : ZeroContextConfig :=
  { target_device := { devType := DeviceType.cuda, index := some 0 }
    is_replicated := false
    shard_param := false }

/-! ### Concrete parameters for the C4/C7 witnesses -/

/-- A concrete fp16 cuda tensor of shape `[2, 3]`. -/
def demoTensor : Tensor :=
  { shape := [2, 3], dtype := DType.float16,
    device := { devType := DeviceType.cuda, index := some 0 } }

/-- A wrap attribute whose tensor is not sharded. -/
def demoAttrUnsharded : ShardedParamV2 := ShardedParamV2.init demoTensor false

/-- A wrap attribute whose tensor is sharded (physical `[2, 3]`,
logical `[4, 3]`). -/
def demoAttrSharded : ShardedParamV2 :=
  { sharded_data_tensor :=
      { payload := demoTensor, state := TensorState.HOLD, origin_shape := [4, 3],
        origin_numel := 12, origin_dtype := DType.float32, is_sharded := true }
    has_torch_payload := true }

/-- A replicated unsharded parameter (must be broadcast). -/
def demoParamRepl : PyParam :=
  { data := demoTensor, grad := none, is_replicated := some true,
    colo_attr := some demoAttrUnsharded }

/-- A non-replicated unsharded parameter (must not be broadcast). -/
def demoParamNonRepl : PyParam :=
  { data := demoTensor, grad := none, is_replicated := some false,
    colo_attr := some demoAttrUnsharded }

/-- A replicated sharded parameter (must not be broadcast). -/
def demoParamSharded : PyParam :=
  { data := demoTensor, grad := none, is_replicated := some true,
    colo_attr := some demoAttrSharded }

/-! ## Claim C8: the model element counter

A module tree under construction is embedded as a store of modules
(each holding its directly owned parameters) plus a construction
order: the sequence in which finished constructors fire the hook on
the modules of the store.  Nesting depth is irrelevant to the hook —
it only ever sees one module's own parameters — so any tree shape and
any constructor nesting is some such sequence; composite constructors
firing the hook twice on the same module appear as repeated indices. -/

/-- The origin element count a parameter contributes: its captured
origin numel once wrapped, its raw element count before. -/
def paramPhi (p : PyParam) : Nat :=
  match p.colo_attr with
  | some a => a.sharded_data_tensor.origin_numel
  | none => p.data.numel

/-- The element count already accumulated for a parameter: its origin
numel once wrapped, nothing before. -/
def paramPsi (p : PyParam) : Nat :=
  match p.colo_attr with
  | some a => a.sharded_data_tensor.origin_numel
  | none => 0

/-- `paramPhi` summed over a module's own parameters. -/
def modulePhi (m : PyModule) : Nat := (m.params.map paramPhi).sum

/-- `paramPsi` summed over a module's own parameters. -/
def modulePsi (m : PyModule) : Nat := (m.params.map paramPsi).sum

/-- `modulePhi` summed over the store. -/
def storePhi (store : List PyModule) : Nat := (store.map modulePhi).sum

/-- `modulePsi` summed over the store. -/
def storePsi (store : List PyModule) : Nat := (store.map modulePsi).sum

/-- The sum of the raw element counts of every parameter of every
module of the store. -/
def totalNumel (store : List PyModule) : Nat :=
  (store.map (fun m => (m.params.map (fun p => p.data.numel)).sum)).sum

/-- Every parameter of the module carries wrap metadata. -/
def moduleWrapped (m : PyModule) : Prop := ∀ p ∈ m.params, p.colo_attr.isSome

/-- Fire the hook on the stored modules in the given construction
order, threading the bookkeeping state and writing each transformed
module back to the store (the hook mutates the module in place). -/
def constructModules (cfg : ZeroContextConfig) (strat : BaseShardStrategy) (cur_cuda : Nat) :
    List Nat → List PyModule → PostInitState → List PyModule × PostInitState
  | [], store, s => (store, s)
  | i :: rest, store, s =>
      match store[i]? with
      | none => constructModules cfg strat cur_cuda rest store s
      | some m =>
          let r := _post_init_method cfg strat cur_cuda m s
          constructModules cfg strat cur_cuda rest (store.set i r.1) r.2

/-- A fresh (not yet intercepted) parameter of shape `[2, 3]`. -/
def demoFreshParamA : PyParam :=
  { data := { shape := [2, 3], dtype := DType.float32,
              device := { devType := DeviceType.cpu, index := none } },
    grad := none, is_replicated := none, colo_attr := none }

/-- A fresh parameter of shape `[4]`. -/
def demoFreshParamB : PyParam :=
  { data := { shape := [4], dtype := DType.float32,
              device := { devType := DeviceType.cpu, index := none } },
    grad := none, is_replicated := none, colo_attr := none }

/-- A fresh scalar parameter. -/
def demoFreshParamC : PyParam :=
  { data := { shape := [], dtype := DType.int64,
              device := { devType := DeviceType.cpu, index := none } },
    grad := none, is_replicated := none, colo_attr := none }

/-- A two-module store: total element count `6 + (4 + 1) = 11`. -/
def demoStore : List PyModule :=
  [{ params := [demoFreshParamA], buffers := [] },
   { params := [demoFreshParamB, demoFreshParamC], buffers := [] }]

/-! ## Claim C2: the interceptor scope and its exit restoration

The development below characterises the three phases — the bottom-up
enable pass of `__enter__`, the class declarations made while the
scope is active, and the disable pass of `__exit__` — and culminates
in a counterexample (a class declared inside the scope with its own
constructor does not get it back) and the amended restoration theorem. -/

/-- The ordering guarantee a traversed element gives over every later
one: they differ, and the earlier element is not an ancestor of the
later one (children are handled strictly before their ancestors). -/
def TraversalRel (parent : Nat → Nat) (b c : Nat) : Prop :=
  b ≠ c ∧ ¬ AncOf parent c b

/-! ### The enable pass of `__enter__` -/

/-- The attribute state `_enable_class` leaves on a class whose
original effective constructor was `e`. -/
def enabledAttrs (e : InitFn) : ClassAttrs :=
  { initAttr := some (InitFn.wrapped e), oldInitAttr := some e }

/-- A concrete entry hierarchy: class 0 is `torch.nn.Module`, class 1
a pre-existing module class with its own constructor. -/
def demoClassTable : ClassTable where
  count := 2
  parent := fun _ => 0
  hparent := fun c hc => Nat.pos_of_ne_zero hc

/-- The entry attributes of the two classes: each has its own
constructor, nobody has `_old_init`. -/
def demoClassAttrs : AttrMap := fun c =>
  if c = 0 then { initAttr := some InitFn.moduleInit, oldInitAttr := none }
  else if c = 1 then { initAttr := some (InitFn.defInit 1), oldInitAttr := none }
  else { initAttr := none, oldInitAttr := none }

/-- The pre-entry interpreter state. -/
def demoEntryWorld : World :=
  { tbl := demoClassTable, attrs := demoClassAttrs, hooked := false }

/-- The state after entering the scope and declaring one new class
(number 2) subclassing class 1, with its own constructor
(`defInit 2`) in its body. -/
def demoScopeWorld : World :=
  declareAll (interceptorEnter demoEntryWorld) [(1, true)]

/-! ## Claim C3: `ZeroContextConfig` construction -/

/-- Claim C3: constructing a `ZeroContextConfig` fails exactly on the
two invariant violations — `shard_param` set while `replicated` is
not, and a replicated non-sharded config whose target device is not a
cuda device — and for every other field combination succeeds and
stores the three fields unchanged. -/
theorem claimC3_config_construction (dev : TorchDevice) (replicated shard_param : Bool) :
    (shard_param = true → replicated = false →
      ZeroContextConfig.init dev replicated shard_param =
        Except.error (PyError.assertionError "Non-replicated parameters can't be sharded.")) ∧
    (replicated = true → shard_param = false → dev.devType ≠ DeviceType.cuda →
      ZeroContextConfig.init dev replicated shard_param =
        Except.error (PyError.assertionError "Replicated no-shard paramters should locate in cuda.")) ∧
    (¬ (shard_param = true ∧ replicated = false) →
      ¬ (replicated = true ∧ shard_param = false ∧ dev.devType ≠ DeviceType.cuda) →
      ZeroContextConfig.init dev replicated shard_param =
        Except.ok { target_device := dev, is_replicated := replicated, shard_param := shard_param }) := by
  refine ⟨?_, ?_, ?_⟩
  · intro h1 h2
    subst h1; subst h2
    simp [ZeroContextConfig.init]
  · intro h1 h2 h3
    subst h1; subst h2
    simp [ZeroContextConfig.init, h3]
  · intro h1 h2
    rw [ZeroContextConfig.init, if_neg ?_, if_neg ?_]
    · intro hc
      exact h2 ⟨hc.1, by simpa using hc.2.1, hc.2.2⟩
    · intro hc
      exact h1 ⟨hc.1, by simpa using hc.2⟩

/-- Witness for claim C3: each of the three branches at a concrete
input. -/
theorem claimC3_config_construction_witness :
    ZeroContextConfig.init { devType := DeviceType.cpu, index := none } false true =
      Except.error (PyError.assertionError "Non-replicated parameters can't be sharded.") ∧
    ZeroContextConfig.init { devType := DeviceType.cpu, index := none } true false =
      Except.error (PyError.assertionError "Replicated no-shard paramters should locate in cuda.") ∧
    ZeroContextConfig.init { devType := DeviceType.cuda, index := some 0 } true true =
      Except.ok { target_device := { devType := DeviceType.cuda, index := some 0 },
                  is_replicated := true, shard_param := true } :=
  ⟨(claimC3_config_construction _ false true).1 rfl rfl,
   (claimC3_config_construction _ true false).2.1 rfl rfl (by decide),
   (claimC3_config_construction _ true true).2.2 (by decide) (by decide)⟩

/-- Claim C1 (code defect): with a context current and valid
overrides, a nested scope that raises leaves the substitute config
installed — the generator's restore assignment sits after the `yield`
with no `try`/`finally`, so it is skipped on abnormal exit — whereas
normal exit does restore the original config, and the no-context case
is a pure pass-through. -/
theorem claimC1_hijack_not_restored_on_exception :
    hijack_context_config (some hijackDemoOldConfig) hijackDemoKwargs
        (BodyBehavior.raise (PyError.valueError "boom")) =
      { final_config := some hijackDemoNewConfig, raised := some (PyError.valueError "boom") } ∧
    hijackDemoNewConfig ≠ hijackDemoOldConfig ∧
    hijack_context_config (some hijackDemoOldConfig) hijackDemoKwargs BodyBehavior.ok =
      { final_config := some hijackDemoOldConfig, raised := none } ∧
    hijack_context_config none hijackDemoKwargs
        (BodyBehavior.raise (PyError.valueError "boom")) =
      { final_config := none, raised := some (PyError.valueError "boom") } := by
  decide

/-! ## Claim C9: `ShardedTensor` origin metadata -/

/-- Applying any single operation preserves the origin metadata. -/
theorem applyOp_preserves_origin (st : ShardedTensor) (op : ShardedTensorOp) :
    (st.applyOp op).origin_shape = st.origin_shape ∧
    (st.applyOp op).origin_numel = st.origin_numel ∧
    (st.applyOp op).origin_dtype = st.origin_dtype := by
  cases op <;> exact ⟨rfl, rfl, rfl⟩

/-- Applying any sequence of operations preserves the origin metadata. -/
theorem applyOps_preserves_origin (st : ShardedTensor) (ops : List ShardedTensorOp) :
    (st.applyOps ops).origin_shape = st.origin_shape ∧
    (st.applyOps ops).origin_numel = st.origin_numel ∧
    (st.applyOps ops).origin_dtype = st.origin_dtype := by
  induction ops generalizing st with
  | nil => exact ⟨rfl, rfl, rfl⟩
  | cons op ops ih =>
      have h1 := applyOp_preserves_origin st op
      have h2 := ih (st.applyOp op)
      simp only [ShardedTensor.applyOps, List.foldl_cons] at h2 ⊢
      exact ⟨h2.1.trans h1.1, h2.2.1.trans h1.2.1, h2.2.2.trans h1.2.2⟩

/-- Claim C9: the origin metadata of a `ShardedTensor` equals the
shape, element count and dtype of the tensor supplied at construction,
`is_sharded` is false immediately after construction, and the origin
metadata is unchanged under every subsequent sequence of operations
(including setting `is_sharded` and re-sharding the payload). -/
theorem claimC9_sharded_tensor_origin (t : Tensor) (s : TensorState)
    (ops : List ShardedTensorOp) :
    (ShardedTensor.init t s).origin_shape = t.shape ∧
    (ShardedTensor.init t s).origin_numel = t.numel ∧
    (ShardedTensor.init t s).origin_dtype = t.dtype ∧
    (ShardedTensor.init t s).is_sharded = false ∧
    ((ShardedTensor.init t s).applyOps ops).origin_shape = t.shape ∧
    ((ShardedTensor.init t s).applyOps ops).origin_numel = t.numel ∧
    ((ShardedTensor.init t s).applyOps ops).origin_dtype = t.dtype := by
  have h := applyOps_preserves_origin (ShardedTensor.init t s) ops
  exact ⟨rfl, rfl, rfl, rfl, h.1, h.2.1, h.2.2⟩

/-! ## Claim C6: the substituted fan-in/fan-out routine on sharded
parameters -/

/-- Claim C6: on a parameter carrying shard metadata and marked
sharded, the substituted routine computes from `origin_shape`: its
result equals the fan-in/fan-out computed directly from the logical
shape (`fan_in = shape[1] * prod(shape[2:])`,
`fan_out = shape[0] * prod(shape[2:])`), independent of the physical
shape, and it fails with a dimension error exactly when the logical
shape has fewer than two dimensions. -/
theorem claimC6_fanin_fanout_logical_shape (t : ParamTensor) (a : ShardedParamV2)
    (hp : t.is_param = true) (ha : t.colo_attr = some a)
    (hs : a.sharded_data_tensor.is_sharded = true) :
    calc_fanin_fanout t = specFanInFanOut a.sharded_data_tensor.origin_shape ∧
    (∀ n0 n1 rest, a.sharded_data_tensor.origin_shape = n0 :: n1 :: rest →
      calc_fanin_fanout t = Except.ok (n1 * rest.prod, n0 * rest.prod)) ∧
    (a.sharded_data_tensor.origin_shape.length < 2 →
      calc_fanin_fanout t =
        Except.error (PyError.valueError
          "Fan in and fan out can not be computed for tensor with fewer than 2 dimensions")) := by
  have hcalc : calc_fanin_fanout t = specFanInFanOut a.sharded_data_tensor.origin_shape := by
    rw [calc_fanin_fanout, if_neg (by simp [hp])]
    simp only [ha]
    rw [if_neg (by simp [ShardedParamV2.param_is_sharded, hs])]
    cases hsh : a.sharded_data_tensor.origin_shape with
    | nil => rfl
    | cons n0 tl => cases tl with
      | nil => rfl
      | cons n1 rest => rfl
  refine ⟨hcalc, ?_, ?_⟩
  · intro n0 n1 rest hsh
    rw [hcalc, hsh]
    rfl
  · intro hlen
    rw [hcalc]
    cases hsh : a.sharded_data_tensor.origin_shape with
    | nil => rfl
    | cons n0 tl => cases tl with
      | nil => rfl
      | cons n1 rest => rw [hsh] at hlen; simp at hlen; omega

/-- Witness for claim C6: a parameter whose physical payload is a
shard of shape `[2, 3]` while the logical origin shape is `[4, 3]`;
the substituted routine answers `(3, 4)`, the fan-in/fan-out of the
logical shape. -/
theorem claimC6_fanin_fanout_logical_shape_witness :
    calc_fanin_fanout
        { tensor := { shape := [2, 3], dtype := DType.float16,
                      device := { devType := DeviceType.cuda, index := some 0 } }
          is_param := true
          colo_attr := some
            { sharded_data_tensor :=
                { payload := { shape := [2, 3], dtype := DType.float16,
                               device := { devType := DeviceType.cuda, index := some 0 } }
                  state := TensorState.HOLD
                  origin_shape := [4, 3]
                  origin_numel := 12
                  origin_dtype := DType.float32
                  is_sharded := true }
              has_torch_payload := true } } =
      specFanInFanOut [4, 3] ∧
    specFanInFanOut [4, 3] = Except.ok (3, 4) :=
  ⟨(claimC6_fanin_fanout_logical_shape _ _ rfl rfl rfl).1, by rfl⟩

/-! ## Claim C10: the substituted routine rejects non-parameters -/

/-- Claim C10: inside the scope the substituted fan-in/fan-out routine
fails with an assertion error on every tensor that is not an
`nn.Parameter`, although the library routine it replaces accepts such
tensors (succeeding whenever the physical shape has at least two
dimensions). -/
theorem claimC10_fanin_fanout_rejects_non_param (t : ParamTensor)
    (h : t.is_param = false) :
    calc_fanin_fanout t =
      Except.error (PyError.assertionError
        "Sharded tensor initilization is only allowed for paramters") ∧
    (∀ n0 n1 rest, t.tensor.shape = n0 :: n1 :: rest →
      torch_calculate_fan_in_and_fan_out t = Except.ok (n1 * rest.prod, n0 * rest.prod)) := by
  constructor
  · rw [calc_fanin_fanout]
    simp [h]
  · intro n0 n1 rest hsh
    rw [torch_calculate_fan_in_and_fan_out, hsh]

/-- Witness for claim C10: a plain 2-dimensional tensor (not a
parameter) is rejected by the substitute and accepted by the library
routine. -/
theorem claimC10_fanin_fanout_rejects_non_param_witness :
    calc_fanin_fanout
        { tensor := { shape := [5, 7], dtype := DType.float32,
                      device := { devType := DeviceType.cpu, index := none } }
          is_param := false
          colo_attr := none } =
      Except.error (PyError.assertionError
        "Sharded tensor initilization is only allowed for paramters") ∧
    torch_calculate_fan_in_and_fan_out
        { tensor := { shape := [5, 7], dtype := DType.float32,
                      device := { devType := DeviceType.cpu, index := none } }
          is_param := false
          colo_attr := none } =
      Except.ok (7, 5) :=
  ⟨(claimC10_fanin_fanout_rejects_non_param _ rfl).1,
   by simpa using (claimC10_fanin_fanout_rejects_non_param _ rfl).2 5 7 [] rfl⟩

/-! ## Claim C4: the exit-time broadcast/release loop -/

/-- One step of the exit loop on a parameter whose two dynamic
attributes are present: the payload is released, and a broadcast of
`param.data` from `src_rank` is recorded exactly when the parameter is
marked replicated and its wrapped tensor is not sharded. -/
theorem broadcastStep_spec (src_rank : Nat) (p : PyParam) (a : ShardedParamV2) (b : Bool)
    (ha : p.colo_attr = some a) (hb : p.is_replicated = some b) :
    broadcastStep src_rank p =
      Except.ok ({ p with colo_attr := some a.remove_torch_payload },
        if b = true ∧ a.param_is_sharded = false
        then some { tensor := p.data, src := src_rank } else none) := by
  rw [broadcastStep, ha]
  cases hs : a.param_is_sharded with
  | true =>
      simp only [if_pos hs]
      simp [hs]
  | false =>
      simp only [Bool.false_eq_true, if_neg]
      rw [hb]
      cases b <;> simp [hs]

/-- The exit loop succeeds on a list of parameters whose attributes
are present, and its per-parameter results are as in
`broadcastStep_spec`. -/
theorem broadcastLoop_spec (src_rank : Nat) (ps : List PyParam)
    (h : ∀ p ∈ ps, p.colo_attr.isSome ∧ p.is_replicated.isSome) :
    ∃ rs, broadcastLoop src_rank ps = Except.ok rs ∧
      List.Forall₂ (fun (p : PyParam) (r : PyParam × Option BroadcastEvent) =>
        ∀ a b, p.colo_attr = some a → p.is_replicated = some b →
          r.1 = { p with colo_attr := some a.remove_torch_payload } ∧
          r.2 = (if b = true ∧ a.param_is_sharded = false
                 then some { tensor := p.data, src := src_rank } else none)) ps rs := by
  induction ps with
  | nil => exact ⟨[], rfl, List.Forall₂.nil⟩
  | cons p ps ih =>
      have hhd := h p (List.mem_cons_self p ps)
      have hrest : ∀ q ∈ ps, q.colo_attr.isSome ∧ q.is_replicated.isSome :=
        fun q hq => h q (List.mem_cons_of_mem p hq)
      obtain ⟨a, ha⟩ := Option.isSome_iff_exists.mp hhd.1
      obtain ⟨b, hb⟩ := Option.isSome_iff_exists.mp hhd.2
      obtain ⟨rs, hok, hfa⟩ := ih hrest
      refine ⟨({ p with colo_attr := some a.remove_torch_payload },
               if b = true ∧ a.param_is_sharded = false
               then some { tensor := p.data, src := src_rank } else none) :: rs, ?_, ?_⟩
      · rw [broadcastLoop, broadcastStep_spec src_rank p a b ha hb, hok]
      · refine List.Forall₂.cons ?_ hfa
        intro a2 b2 ha2 hb2
        rw [ha] at ha2; rw [hb] at hb2
        cases ha2; cases hb2
        exact ⟨rfl, rfl⟩

/-- When the broadcast loop succeeds and the three entry snapshots are
present, `_post_context_exec` succeeds, discards `param_list`,
restores the three snapshotted slots, and reports exactly the recorded
broadcasts. -/
theorem post_context_exec_ok (src_rank : Nat) (rest : List Nat)
    (st : ZeroInitCtxState) (g : TorchGlobal)
    (rs : List (PyParam × Option BroadcastEvent)) (fr : FaninRoutine) (crs curs : Nat)
    (hok : broadcastLoop src_rank st.books.param_list = Except.ok rs)
    (hfr : st.nn_fanin_fanout = some fr)
    (hcrs : st.cpu_rng_state = some crs)
    (hcurs : st.cuda_rng_state = some curs) :
    _post_context_exec (src_rank :: rest) st g =
      Except.ok ({ st with books := { st.books with param_list := [] } },
                 { g with fanin_fanout_routine := fr, cpu_rng := crs, cuda_rng := curs },
                 rs.filterMap (fun r => r.2)) := by
  rw [_post_context_exec, hok, hfr, hcrs, hcurs]

/-- Claim C4: at scope exit, for every parameter in `param_list` a
broadcast of its data from the first rank of the data-parallel group
is recorded if and only if the parameter is marked replicated and its
wrapped tensor is not sharded, and for every parameter — sharded or
not, replicated or not — the redundant torch payload is released;
`_post_context_exec` completes and reports exactly the recorded
broadcasts. -/
theorem claimC4_broadcast_iff_replicated_unsharded (src_rank : Nat) (ps : List PyParam)
    (h : ∀ p ∈ ps, p.colo_attr.isSome ∧ p.is_replicated.isSome) :
    ∃ rs, broadcastLoop src_rank ps = Except.ok rs ∧
      List.Forall₂ (fun (p : PyParam) (r : PyParam × Option BroadcastEvent) =>
        ∀ a b, p.colo_attr = some a → p.is_replicated = some b →
          ((∃ ev, r.2 = some ev) ↔ (b = true ∧ a.param_is_sharded = false)) ∧
          (∀ ev, r.2 = some ev → ev = { tensor := p.data, src := src_rank }) ∧
          (∃ a2, r.1.colo_attr = some a2 ∧ a2.has_torch_payload = false)) ps rs ∧
      (∀ st g rest, st.books.param_list = ps →
        st.nn_fanin_fanout.isSome → st.cpu_rng_state.isSome → st.cuda_rng_state.isSome →
        ∃ st2 g2, _post_context_exec (src_rank :: rest) st g =
          Except.ok (st2, g2, rs.filterMap (fun r => r.2))) := by
  obtain ⟨rs, hok, hfa⟩ := broadcastLoop_spec src_rank ps h
  refine ⟨rs, hok, ?_, ?_⟩
  · refine hfa.imp ?_
    intro p r hpr a b ha hb
    obtain ⟨h1, h2⟩ := hpr a b ha hb
    refine ⟨?_, ?_, ?_⟩
    · rw [h2]
      by_cases hc : b = true ∧ a.param_is_sharded = false
      · simp [hc]
      · simp [hc]
    · intro ev hev
      rw [h2] at hev
      by_cases hc : b = true ∧ a.param_is_sharded = false
      · rw [if_pos hc] at hev
        exact (Option.some_inj.mp hev).symm
      · rw [if_neg hc] at hev
        exact absurd hev (by simp)
    · refine ⟨a.remove_torch_payload, ?_, rfl⟩
      rw [h1]
  · intro st g rest hpl hf hc hcu
    obtain ⟨fr, hfr⟩ := Option.isSome_iff_exists.mp hf
    obtain ⟨crs, hcrs⟩ := Option.isSome_iff_exists.mp hc
    obtain ⟨curs, hcurs⟩ := Option.isSome_iff_exists.mp hcu
    exact ⟨_, _, post_context_exec_ok src_rank rest st g rs fr crs curs
      (by rw [hpl]; exact hok) hfr hcrs hcurs⟩

/-! ## Claim C7: restoration of RNG states and the fan-in/fan-out slot -/

/-- Claim C7: after `_pre_context_exec` snapshots the ambient state,
an arbitrary scope body (arbitrary RNG draws, arbitrary bookkeeping
accumulated by the hook) followed by `_post_context_exec` leaves the
host RNG state, the accelerator RNG state, and the fan-in/fan-out
routine exactly as they were before entry. -/
theorem claimC7_scope_restores_ambient_state (rank : Nat) (st0 : ZeroInitCtxState)
    (g0 : TorchGlobal) (src_rank midCpu midCuda mn : Nat) (rest : List Nat)
    (ps : List PyParam)
    (hps : ∀ p ∈ ps, p.colo_attr.isSome ∧ p.is_replicated.isSome) :
    ∃ st3 g3 ev,
      _post_context_exec (src_rank :: rest)
          { (_pre_context_exec rank st0 g0).1 with
            books := { param_list := ps, model_numel := mn } }
          { (_pre_context_exec rank st0 g0).2 with
            cpu_rng := midCpu, cuda_rng := midCuda } =
        Except.ok (st3, g3, ev) ∧
      g3.cpu_rng = g0.cpu_rng ∧ g3.cuda_rng = g0.cuda_rng ∧
      g3.fanin_fanout_routine = g0.fanin_fanout_routine := by
  obtain ⟨rs, hok, -⟩ := broadcastLoop_spec src_rank ps hps
  have heq := post_context_exec_ok src_rank rest
    { (_pre_context_exec rank st0 g0).1 with
      books := { param_list := ps, model_numel := mn } }
    { (_pre_context_exec rank st0 g0).2 with cpu_rng := midCpu, cuda_rng := midCuda }
    rs g0.fanin_fanout_routine g0.cpu_rng g0.cuda_rng hok rfl rfl rfl
  exact ⟨_, _, _, heq, rfl, rfl, rfl⟩

/-- Witness for claim C4: the loop over the three demo parameters. -/
theorem claimC4_broadcast_iff_replicated_unsharded_witness :
    ∃ rs, broadcastLoop 0 [demoParamRepl, demoParamNonRepl, demoParamSharded] = Except.ok rs ∧
      List.Forall₂ (fun (p : PyParam) (r : PyParam × Option BroadcastEvent) =>
        ∀ a b, p.colo_attr = some a → p.is_replicated = some b →
          ((∃ ev, r.2 = some ev) ↔ (b = true ∧ a.param_is_sharded = false)) ∧
          (∀ ev, r.2 = some ev → ev = { tensor := p.data, src := 0 }) ∧
          (∃ a2, r.1.colo_attr = some a2 ∧ a2.has_torch_payload = false))
        [demoParamRepl, demoParamNonRepl, demoParamSharded] rs ∧
      (∀ st g rest, st.books.param_list = [demoParamRepl, demoParamNonRepl, demoParamSharded] →
        st.nn_fanin_fanout.isSome → st.cpu_rng_state.isSome → st.cuda_rng_state.isSome →
        ∃ st2 g2, _post_context_exec (0 :: rest) st g =
          Except.ok (st2, g2, rs.filterMap (fun r => r.2))) :=
  claimC4_broadcast_iff_replicated_unsharded 0
    [demoParamRepl, demoParamNonRepl, demoParamSharded] (by decide)

/-- Witness for claim C7 at a concrete pre-entry state. -/
theorem claimC7_scope_restores_ambient_state_witness :
    ∃ st3 g3 ev,
      _post_context_exec [0, 1]
          { (_pre_context_exec 1
              { config := hijackDemoOldConfig, seed := 1023,
                books := { param_list := [], model_numel := 0 },
                nn_fanin_fanout := none, cpu_rng_state := none, cuda_rng_state := none }
              { fanin_fanout_routine := FaninRoutine.torchDefault,
                cpu_rng := 42, cuda_rng := 43 }).1 with
            books := { param_list := [demoParamRepl], model_numel := 6 } }
          { (_pre_context_exec 1
              { config := hijackDemoOldConfig, seed := 1023,
                books := { param_list := [], model_numel := 0 },
                nn_fanin_fanout := none, cpu_rng_state := none, cuda_rng_state := none }
              { fanin_fanout_routine := FaninRoutine.torchDefault,
                cpu_rng := 42, cuda_rng := 43 }).2 with
            cpu_rng := 777, cuda_rng := 888 } =
        Except.ok (st3, g3, ev) ∧
      g3.cpu_rng = 42 ∧ g3.cuda_rng = 43 ∧
      g3.fanin_fanout_routine = FaninRoutine.torchDefault :=
  claimC7_scope_restores_ambient_state 1
    { config := hijackDemoOldConfig, seed := 1023,
      books := { param_list := [], model_numel := 0 },
      nn_fanin_fanout := none, cpu_rng_state := none, cuda_rng_state := none }
    { fanin_fanout_routine := FaninRoutine.torchDefault, cpu_rng := 42, cuda_rng := 43 }
    0 777 888 6 [1] [demoParamRepl] (by decide)

/-! ## Claim C5: idempotency of the per-module hook -/

/-- A parameter already carrying wrap metadata is skipped. -/
theorem processParam_skip (cfg : ZeroContextConfig) (strat : BaseShardStrategy)
    (s : PostInitState) (p : PyParam) (h : p.colo_attr.isSome) :
    processParam cfg strat s p = (s, p) := by
  rw [processParam, if_pos h]

/-- After the hook body ran on a parameter, it carries wrap metadata. -/
theorem processParam_attr_isSome (cfg : ZeroContextConfig) (strat : BaseShardStrategy)
    (s : PostInitState) (p : PyParam) :
    ((processParam cfg strat s p).2).colo_attr.isSome := by
  rw [processParam]
  by_cases h : p.colo_attr.isSome
  · rw [if_pos h]; exact h
  · rw [if_neg h]
    cases hs : cfg.shard_param <;> simp [hs]

/-- Every parameter that came out of the parameter loop carries wrap
metadata. -/
theorem processParams_all_some (cfg : ZeroContextConfig) (strat : BaseShardStrategy)
    (ps : List PyParam) (s : PostInitState) :
    ∀ p ∈ (processParams cfg strat ps s).1, p.colo_attr.isSome := by
  induction ps generalizing s with
  | nil => intro p hp; simp [processParams] at hp
  | cons p ps ih =>
      intro q hq
      rw [processParams] at hq
      rcases List.mem_cons.mp hq with h | h
      · rw [h]; exact processParam_attr_isSome cfg strat s p
      · exact ih _ q h

/-- The parameter loop does nothing on a list of parameters that all
carry wrap metadata. -/
theorem processParams_skip (cfg : ZeroContextConfig) (strat : BaseShardStrategy)
    (ps : List PyParam) (s : PostInitState) (h : ∀ p ∈ ps, p.colo_attr.isSome) :
    processParams cfg strat ps s = (ps, s) := by
  induction ps generalizing s with
  | nil => rfl
  | cons p ps ih =>
      rw [processParams]
      rw [processParam_skip cfg strat s p (h p (List.mem_cons_self p ps))]
      rw [ih s (fun q hq => h q (List.mem_cons_of_mem p hq))]

/-- The buffer transform is idempotent: a buffer already moved to the
accelerator and cast to half is left unchanged. -/
theorem processBuffer_idem (cur_cuda : Nat) (b : Tensor) :
    processBuffer cur_cuda (processBuffer cur_cuda b) = processBuffer cur_cuda b := by
  obtain ⟨shape, dtype, device⟩ := b
  cases dtype <;> rfl

/-- Claim C5: the per-module hook is idempotent — applying
`_post_init_method` a second time to the module and bookkeeping state
produced by the first application changes nothing: every parameter
already carries `colo_attr` and is skipped, so the parameters, their
payloads, `param_list` and `model_numel_counter` (and the buffers) are
exactly those after one application. -/
theorem claimC5_post_init_method_idempotent (cfg : ZeroContextConfig)
    (strat : BaseShardStrategy) (cur_cuda : Nat) (m : PyModule) (s : PostInitState) :
    _post_init_method cfg strat cur_cuda
        (_post_init_method cfg strat cur_cuda m s).1
        (_post_init_method cfg strat cur_cuda m s).2 =
      _post_init_method cfg strat cur_cuda m s := by
  have hsome := processParams_all_some cfg strat m.params s
  have hskip := processParams_skip cfg strat (processParams cfg strat m.params s).1
    (processParams cfg strat m.params s).2 hsome
  have h1 : (_post_init_method cfg strat cur_cuda m s).1.params =
      (processParams cfg strat m.params s).1 := rfl
  have h2 : (_post_init_method cfg strat cur_cuda m s).2 =
      (processParams cfg strat m.params s).2 := rfl
  have h3 : (_post_init_method cfg strat cur_cuda m s).1.buffers =
      m.buffers.map (processBuffer cur_cuda) := rfl
  show (⟨⟨_, _⟩, _⟩ : PyModule × PostInitState) = ⟨⟨_, _⟩, _⟩
  rw [h1, h2, h3, hskip]
  refine congrArg (fun bufs => (⟨⟨_, bufs⟩, _⟩ : PyModule × PostInitState)) ?_
  rw [List.map_map]
  exact List.map_congr_left (fun b _ => processBuffer_idem cur_cuda b)

/-- `half_fn` preserves the shape. -/
theorem half_fn_shape (t : Tensor) : (half_fn t).shape = t.shape := by
  rw [half_fn]; split <;> rfl

/-- One hook step preserves `paramPhi` and moves exactly the
parameter's contribution from "not yet counted" into the counter. -/
theorem processParam_phi_psi (cfg : ZeroContextConfig) (strat : BaseShardStrategy)
    (s : PostInitState) (p : PyParam) :
    paramPhi (processParam cfg strat s p).2 = paramPhi p ∧
    (processParam cfg strat s p).1.model_numel + paramPsi p =
      s.model_numel + paramPsi (processParam cfg strat s p).2 := by
  by_cases h : p.colo_attr.isSome
  · rw [processParam_skip cfg strat s p h]
    exact ⟨rfl, rfl⟩
  · have hnone : p.colo_attr = none := Option.not_isSome_iff_eq_none.mp h
    rw [processParam, if_neg h]
    have hsh : ((half_fn p.data).to cfg.target_device).shape = p.data.shape := by
      rw [Tensor.to, half_fn_shape]
    cases hs : cfg.shard_param <;>
      simp [hs, paramPhi, paramPsi, hnone, ShardedParamV2.init, ShardedTensor.init,
            BaseShardStrategy.shardOne, Tensor.numel, PyParam.numel, hsh]

/-- The parameter loop preserves the `paramPhi` sum and moves the
newly counted contributions into the counter. -/
theorem processParams_phi_psi (cfg : ZeroContextConfig) (strat : BaseShardStrategy)
    (ps : List PyParam) (s : PostInitState) :
    (((processParams cfg strat ps s).1).map paramPhi).sum = (ps.map paramPhi).sum ∧
    (processParams cfg strat ps s).2.model_numel + (ps.map paramPsi).sum =
      s.model_numel + (((processParams cfg strat ps s).1).map paramPsi).sum := by
  induction ps generalizing s with
  | nil => exact ⟨rfl, rfl⟩
  | cons p ps ih =>
      obtain ⟨hphi, hpsi⟩ := processParam_phi_psi cfg strat s p
      obtain ⟨ihphi, ihpsi⟩ := ih (processParam cfg strat s p).1
      rw [processParams]
      constructor
      · simp only [List.map_cons, List.sum_cons]
        omega
      · simp only [List.map_cons, List.sum_cons]
        omega

/-- The hook preserves `modulePhi`, moves the module's fresh
contributions into the counter, and leaves every parameter wrapped. -/
theorem post_init_method_phi_psi (cfg : ZeroContextConfig) (strat : BaseShardStrategy)
    (cur_cuda : Nat) (m : PyModule) (s : PostInitState) :
    modulePhi (_post_init_method cfg strat cur_cuda m s).1 = modulePhi m ∧
    (_post_init_method cfg strat cur_cuda m s).2.model_numel + modulePsi m =
      s.model_numel + modulePsi (_post_init_method cfg strat cur_cuda m s).1 ∧
    moduleWrapped (_post_init_method cfg strat cur_cuda m s).1 := by
  obtain ⟨hphi, hpsi⟩ := processParams_phi_psi cfg strat m.params s
  exact ⟨hphi, hpsi, fun p hp => processParams_all_some cfg strat m.params s p hp⟩

/-- Summing a map over a list with one element replaced. -/
theorem sum_map_set {α : Type} (f : α → Nat) (l : List α) (i : Nat) (a : α)
    (h : i < l.length) :
    (((l.set i a).map f)).sum + f l[i] = ((l.map f)).sum + f a := by
  induction l generalizing i with
  | nil => simp at h
  | cons x xs ih =>
      cases i with
      | zero => simp [List.set]; omega
      | succ j =>
          have hj : j < xs.length := by simpa using h
          have := ih j hj
          simp only [List.set, List.map_cons, List.sum_cons, List.getElem_cons_succ] at this ⊢
          omega

/-- When every parameter is wrapped, the accumulated and total
contributions agree. -/
theorem modulePsi_eq_phi_of_wrapped (m : PyModule) (h : moduleWrapped m) :
    modulePsi m = modulePhi m := by
  rw [modulePsi, modulePhi]
  refine congrArg List.sum (List.map_congr_left ?_)
  intro p hp
  obtain ⟨a, ha⟩ := Option.isSome_iff_exists.mp (h p hp)
  rw [paramPsi, paramPhi, ha]

/-- In a fresh module nothing is accumulated yet and the total
contribution is the raw element count. -/
theorem module_fresh_phi_psi (m : PyModule) (h : ∀ p ∈ m.params, p.colo_attr = none) :
    modulePsi m = 0 ∧ modulePhi m = (m.params.map (fun p => p.data.numel)).sum := by
  constructor
  · rw [modulePsi]
    have : ∀ x ∈ m.params.map paramPsi, x = 0 := by
      intro x hx
      obtain ⟨p, hp, hpx⟩ := List.mem_map.mp hx
      rw [← hpx, paramPsi, h p hp]
    simpa using List.sum_eq_zero this
  · rw [modulePhi]
    refine congrArg List.sum (List.map_congr_left ?_)
    intro p hp
    rw [paramPhi, h p hp]

/-- The invariant of the construction fold: the store length and the
`storePhi` total are preserved, the counter grows by exactly what got
wrapped, wrappedness of a slot is preserved, and every slot whose
index occurs in the order ends up wrapped. -/
theorem constructModules_spec (cfg : ZeroContextConfig) (strat : BaseShardStrategy)
    (cur_cuda : Nat) (order : List Nat) (store : List PyModule) (s : PostInitState) :
    (constructModules cfg strat cur_cuda order store s).1.length = store.length ∧
    storePhi (constructModules cfg strat cur_cuda order store s).1 = storePhi store ∧
    (constructModules cfg strat cur_cuda order store s).2.model_numel + storePsi store =
      s.model_numel + storePsi (constructModules cfg strat cur_cuda order store s).1 ∧
    (∀ i (h : i < store.length)
        (h2 : i < (constructModules cfg strat cur_cuda order store s).1.length),
      moduleWrapped store[i] →
      moduleWrapped (constructModules cfg strat cur_cuda order store s).1[i]) ∧
    (∀ i ∈ order, ∀ (h2 : i < (constructModules cfg strat cur_cuda order store s).1.length),
      moduleWrapped (constructModules cfg strat cur_cuda order store s).1[i]) := by
  induction order generalizing store s with
  | nil =>
      refine ⟨rfl, rfl, rfl, ?_, ?_⟩
      · intro i h h2 hw; exact hw
      · intro i hi; simp at hi
  | cons i rest ih =>
      rw [constructModules]
      cases hget : store[i]? with
      | none =>
          have hlen : store.length ≤ i := by
            by_contra hlt
            push_neg at hlt
            rw [List.getElem?_eq_getElem hlt] at hget
            exact Option.noConfusion hget
          obtain ⟨l1, l2, l3, l4, l5⟩ := ih store s
          refine ⟨l1, l2, l3, l4, ?_⟩
          intro q hq h2
          rcases List.mem_cons.mp hq with hq1 | hq2
          · exfalso
            rw [l1] at h2
            omega
          · exact l5 q hq2 h2
      | some m =>
          have hi : i < store.length := by
            by_contra hlt
            push_neg at hlt
            rw [List.getElem?_eq_none hlt] at hget
            exact Option.noConfusion hget
          have hm : store[i] = m := by
            have := List.getElem?_eq_getElem hi
            rw [hget] at this
            exact (Option.some_inj.mp this.symm)
          obtain ⟨hphi, hpsi, hwrap⟩ := post_init_method_phi_psi cfg strat cur_cuda m s
          obtain ⟨l1, l2, l3, l4, l5⟩ :=
            ih (store.set i (_post_init_method cfg strat cur_cuda m s).1)
               (_post_init_method cfg strat cur_cuda m s).2
          have hsetlen : (store.set i (_post_init_method cfg strat cur_cuda m s).1).length =
              store.length := List.length_set store _ _
          have hsumphi := sum_map_set modulePhi store i
            (_post_init_method cfg strat cur_cuda m s).1 hi
          have hsumpsi := sum_map_set modulePsi store i
            (_post_init_method cfg strat cur_cuda m s).1 hi
          rw [hm] at hsumphi hsumpsi
          refine ⟨by rw [l1, hsetlen], ?_, ?_, ?_, ?_⟩
          · rw [l2]
            simp only [storePhi] at hsumphi ⊢
            omega
          · simp only [storePsi] at hsumpsi l3 ⊢
            omega
          · intro j hj h2 hw
            have hj2 : j < (store.set i (_post_init_method cfg strat cur_cuda m s).1).length := by
              rw [hsetlen]; exact hj
            refine l4 j hj2 h2 ?_
            by_cases hij : j = i
            · subst hij
              rw [List.getElem_set_self]
              exact hwrap
            · rw [List.getElem_set_ne (fun h => hij h.symm)]
              exact hw
          · intro q hq h2
            rcases List.mem_cons.mp hq with hq1 | hq2
            · subst hq1
              have hq2' : q < (store.set q (_post_init_method cfg strat cur_cuda m s).1).length := by
                rw [hsetlen]; exact hi
              refine l4 q hq2' h2 ?_
              rw [List.getElem_set_self]
              exact hwrap
            · exact l5 q hq2 h2

/-- Claim C8: for every store of modules whose parameters are all
fresh and every construction order that fires the hook on every
module at least once (repeats allowed, any nesting order),
`model_numel_counter` afterwards equals its initial value plus the sum
of the origin element counts of every parameter — each parameter
counted exactly once, from its pre-shard shape. -/
theorem claimC8_model_numel_total (cfg : ZeroContextConfig) (strat : BaseShardStrategy)
    (cur_cuda : Nat) (order : List Nat) (store : List PyModule) (s : PostInitState)
    (hfresh : ∀ m ∈ store, ∀ p ∈ m.params, p.colo_attr = none)
    (hcover : ∀ i < store.length, i ∈ order) :
    (constructModules cfg strat cur_cuda order store s).2.model_numel =
      s.model_numel + totalNumel store := by
  obtain ⟨l1, l2, l3, l4, l5⟩ := constructModules_spec cfg strat cur_cuda order store s
  have hpsi0 : storePsi store = 0 := by
    rw [storePsi]
    refine List.sum_eq_zero ?_
    intro x hx
    obtain ⟨m, hm, hmx⟩ := List.mem_map.mp hx
    rw [← hmx]
    exact (module_fresh_phi_psi m (hfresh m hm)).1
  have hphi : storePhi store = totalNumel store := by
    rw [storePhi, totalNumel]
    refine congrArg List.sum (List.map_congr_left ?_)
    intro m hm
    exact (module_fresh_phi_psi m (hfresh m hm)).2
  have hwrapped : ∀ m2 ∈ (constructModules cfg strat cur_cuda order store s).1,
      moduleWrapped m2 := by
    intro m2 hm2
    obtain ⟨j, hj, hjm⟩ := List.mem_iff_getElem.mp hm2
    rw [← hjm]
    have hjs : j < store.length := by rw [← l1]; exact hj
    exact l5 j (hcover j hjs) hj
  have hfinal : storePsi (constructModules cfg strat cur_cuda order store s).1 =
      storePhi (constructModules cfg strat cur_cuda order store s).1 := by
    rw [storePsi, storePhi]
    refine congrArg List.sum (List.map_congr_left ?_)
    intro m2 hm2
    exact modulePsi_eq_phi_of_wrapped m2 (hwrapped m2 hm2)
  omega

/-- Witness for claim C8: constructing the two demo modules in the
order `[1, 0, 1]` (module 1's hook fires twice) accumulates exactly
`totalNumel demoStore` on top of the initial counter value 5. -/
theorem claimC8_model_numel_total_witness :
    (constructModules hijackDemoOldConfig (fun t => t) 0 [1, 0, 1] demoStore
        { param_list := [], model_numel := 5 }).2.model_numel =
      5 + totalNumel demoStore :=
  claimC8_model_numel_total hijackDemoOldConfig (fun t => t) 0 [1, 0, 1] demoStore
    { param_list := [], model_numel := 5 } (by decide) (by decide)

/-- Head decomposition of a transitive chain. -/
theorem transGen_head_cases {α : Type} {r : α → α → Prop} {a c : α}
    (h : Relation.TransGen r a c) :
    r a c ∨ ∃ b, r a b ∧ Relation.TransGen r b c := by
  induction h with
  | single h => exact Or.inl h
  | tail h1 h2 ih =>
      rcases ih with h | ⟨b, hb, hbc⟩
      · exact Or.inr ⟨_, h, Relation.TransGen.single h2⟩
      · exact Or.inr ⟨b, hb, hbc.tail h2⟩

/-- Ancestors have strictly smaller class numbers. -/
theorem ancOf_lt {parent : Nat → Nat} (hp : ∀ c, c ≠ 0 → parent c < c)
    {x a : Nat} (h : AncOf parent x a) : a < x := by
  induction h with
  | single h => rw [← h.2]; exact hp _ h.1
  | tail h1 h2 ih =>
      have : _ < _ := hp _ h2.1
      rw [h2.2] at this
      omega

/-- Two ancestors of the same class are comparable: the ancestors of
a class form a single chain, because each class has one parent. -/
theorem ancOf_comparable {parent : Nat → Nat} (hp : ∀ c, c ≠ 0 → parent c < c) :
    ∀ {x a b : Nat}, AncOf parent x a → AncOf parent x b →
      a = b ∨ AncOf parent a b ∨ AncOf parent b a := by
  intro x
  induction x using Nat.strong_induction_on with
  | _ x ih =>
      intro a b ha hb
      rcases transGen_head_cases ha with h1 | ⟨y, hy, ha2⟩
      · rcases transGen_head_cases hb with h2 | ⟨y2, hy2, hb2⟩
        · left; rw [← h1.2, ← h2.2]
        · have hae : a = y2 := by rw [← h1.2, ← hy2.2]
          subst hae
          exact Or.inr (Or.inl hb2)
      · rcases transGen_head_cases hb with h2 | ⟨y2, hy2, hb2⟩
        · have hbe : b = y := by rw [← h2.2, ← hy.2]
          subst hbe
          exact Or.inr (Or.inr ha2)
        · have hyy : y = y2 := by rw [← hy.2, ← hy2.2]
          subst hyy
          have hylt : y < x := by
            have := hp x hy.1
            rw [hy.2] at this
            exact this
          exact ih y hylt ha2 hb2

/-- A class cannot be an ancestor of a sibling: two distinct children
of the same parent have disjoint subtrees. -/
theorem not_ancOf_sibling {parent : Nat → Nat} (hp : ∀ c, c ≠ 0 → parent c < c)
    {q s s' : Nat} (hs : parent s = q) (hs0 : s ≠ 0) (hs' : parent s' = q) (hs0' : s' ≠ 0)
    (h : AncOf parent s s') : False := by
  rcases transGen_head_cases h with h1 | ⟨y, hy, h2⟩
  · -- s' = parent s = q, but then parent s' = q = s' contradicts descent
    have he : s' = q := by rw [← h1.2, hs]
    have hlt := hp s' hs0'
    rw [hs', he] at hlt
    omega
  · -- y = parent s = q, and q is then an ancestor of s', so s' < q;
    -- but parent s' = q forces q < s'
    have hyq : y = q := by rw [← hy.2, hs]
    have h2' : AncOf parent q s' := hyq ▸ h2
    have hlt1 : s' < q := ancOf_lt hp h2'
    have hlt2 : q < s' := by
      have := hp s' hs0'
      rw [hs'] at this
      exact this
    omega

/-- A class reached downward from two children of the same parent is
reached from the same child: the entry child of a subtree is unique. -/
theorem entry_child_unique {parent : Nat → Nat} (hp : ∀ c, c ≠ 0 → parent c < c)
    {q s s' x : Nat} (hs : parent s = q) (hs0 : s ≠ 0) (hs' : parent s' = q) (hs0' : s' ≠ 0)
    (h1 : s = x ∨ AncOf parent x s) (h2 : s' = x ∨ AncOf parent x s') : s = s' := by
  rcases h1 with h1 | h1
  · rcases h2 with h2 | h2
    · rw [h1, h2]
    · subst h1
      exact absurd h2 (fun hc => not_ancOf_sibling hp hs hs0 hs' hs0' hc)
  · rcases h2 with h2 | h2
    · subst h2
      exact absurd h1 (fun hc => not_ancOf_sibling hp hs' hs0' hs hs0 hc)
    · rcases ancOf_comparable hp h1 h2 with he | hc | hc
      · exact he
      · exact absurd hc (fun hc => not_ancOf_sibling hp hs hs0 hs' hs0' hc)
      · exact absurd hc (fun hc => not_ancOf_sibling hp hs' hs0' hs hs0 hc)

/-- Membership in `__subclasses__`. -/
theorem mem_subclassesOf {tbl : ClassTable} {c s : Nat} :
    s ∈ subclassesOf tbl c ↔ s < tbl.count ∧ s ≠ 0 ∧ tbl.parent s = c := by
  rw [subclassesOf]
  constructor
  · intro h
    have h1 := List.mem_filter.mp h
    have h2 := List.mem_range.mp h1.1
    have h3 := of_decide_eq_true h1.2
    exact ⟨h2, h3.1, h3.2⟩
  · intro ⟨h1, h2, h3⟩
    exact List.mem_filter.mpr ⟨List.mem_range.mpr h1, decide_eq_true ⟨h2, h3⟩⟩

/-- Soundness of the traversal: every visited class is a registered
strict descendant of the root of the traversal. -/
theorem mem_traversalGo {tbl : ClassTable} :
    ∀ {fuel q x : Nat}, x ∈ traversalGo tbl fuel q →
      x < tbl.count ∧ x ≠ 0 ∧ AncOf tbl.parent x q := by
  intro fuel
  induction fuel with
  | zero => intro q x h; simp [traversalGo] at h
  | succ fuel ih =>
      intro q x h
      rw [traversalGo] at h
      obtain ⟨s, hs, hx⟩ := List.mem_flatMap.mp h
      obtain ⟨hslt, hs0, hsp⟩ := mem_subclassesOf.mp hs
      rcases List.mem_append.mp hx with hx | hx
      · obtain ⟨hxlt, hx0, hxs⟩ := ih hx
        exact ⟨hxlt, hx0, hxs.tail ⟨hs0, hsp⟩⟩
      · have hxe : x = s := List.mem_singleton.mp hx
        subst hxe
        exact ⟨hslt, hs0, Relation.TransGen.single ⟨hs0, hsp⟩⟩

/-- Completeness of the traversal: every registered strict descendant
of the traversal root is visited, given fuel at least `x - q`. -/
theorem mem_traversalGo_of_anc {tbl : ClassTable} :
    ∀ {x q : Nat}, AncOf tbl.parent x q → x < tbl.count →
      ∀ {fuel : Nat}, x - q ≤ fuel → x ∈ traversalGo tbl fuel q := by
  intro x q h
  induction h with
  | @single q hq =>
      intro hlt fuel hfuel
      have hqx : q < x := by
        have := tbl.hparent x hq.1
        rw [hq.2] at this
        exact this
      cases fuel with
      | zero => omega
      | succ fuel =>
          rw [traversalGo]
          refine List.mem_flatMap.mpr ⟨x, mem_subclassesOf.mpr ⟨hlt, hq.1, hq.2⟩, ?_⟩
          exact List.mem_append.mpr (Or.inr (List.mem_singleton.mpr rfl))
  | @tail b q h1 h2 ih =>
      intro hlt fuel hfuel
      have hbx : b < x := ancOf_lt tbl.hparent h1
      have hblt : b < tbl.count := by omega
      have hqb : q < b := by
        have := tbl.hparent b h2.1
        rw [h2.2] at this
        exact this
      cases fuel with
      | zero => omega
      | succ fuel =>
          rw [traversalGo]
          refine List.mem_flatMap.mpr ⟨b, mem_subclassesOf.mpr ⟨hblt, h2.1, h2.2⟩, ?_⟩
          refine List.mem_append.mpr (Or.inl ?_)
          exact ih hlt (by omega)

/-- Every class other than the root has the root among its
ancestors. -/
theorem ancOf_root {parent : Nat → Nat} (hp : ∀ c, c ≠ 0 → parent c < c) :
    ∀ x, x ≠ 0 → AncOf parent x 0 := by
  intro x
  induction x using Nat.strong_induction_on with
  | _ x ih =>
      intro hx0
      by_cases hpx : parent x = 0
      · exact Relation.TransGen.single ⟨hx0, hpx⟩
      · have hlt : parent x < x := hp x hx0
        exact Relation.TransGen.head ⟨hx0, rfl⟩ (ih (parent x) hlt hpx)

/-- Every registered class other than the root is visited by the full
exit/enter traversal. -/
theorem mem_traversalOrder {tbl : ClassTable} {x : Nat} (hx0 : x ≠ 0)
    (hx : x < tbl.count) : x ∈ traversalOrder tbl 0 :=
  mem_traversalGo_of_anc (ancOf_root tbl.hparent x hx0) hx (by omega)

/-- Elements of one subtree block of the traversal are the subtree
root or its strict descendants. -/
theorem mem_block {tbl : ClassTable} {fuel s x : Nat}
    (h : x ∈ traversalGo tbl fuel s ++ [s]) : x = s ∨ AncOf tbl.parent x s := by
  rcases List.mem_append.mp h with h | h
  · exact Or.inr (mem_traversalGo h).2.2
  · exact Or.inl (List.mem_singleton.mp h)

/-- The concatenated blocks of a nodup sibling list are pairwise
ordered, provided each single subtree traversal is. -/
theorem pairwise_blocks (tbl : ClassTable) (fuel : Nat) (q : Nat)
    (hgo : ∀ s, List.Pairwise (TraversalRel tbl.parent) (traversalGo tbl fuel s)) :
    ∀ (ss : List Nat), ss.Nodup → (∀ s ∈ ss, s ≠ 0 ∧ tbl.parent s = q) →
      List.Pairwise (TraversalRel tbl.parent)
        (ss.flatMap (fun s => traversalGo tbl fuel s ++ [s])) := by
  intro ss
  induction ss with
  | nil => intro _ _; simp
  | cons s ss ih =>
      intro hnd hprops
      have hs0 : s ≠ 0 := (hprops s (List.mem_cons_self s ss)).1
      have hsp : tbl.parent s = q := (hprops s (List.mem_cons_self s ss)).2
      rw [List.flatMap_cons]
      rw [List.pairwise_append]
      refine ⟨?_, ?_, ?_⟩
      · -- within the head block
        rw [List.pairwise_append]
        refine ⟨hgo s, List.pairwise_singleton _ _, ?_⟩
        intro b hb c hc
        have hc' : c = s := List.mem_singleton.mp hc
        rw [hc']
        have hbs : AncOf tbl.parent b s := (mem_traversalGo hb).2.2
        have hlt := ancOf_lt tbl.hparent hbs
        refine ⟨by omega, ?_⟩
        intro hcb
        have h2 := ancOf_lt tbl.hparent hcb
        omega
      · -- within the later blocks
        exact ih (List.Nodup.of_cons hnd)
          (fun t ht => hprops t (List.mem_cons_of_mem s ht))
      · -- across: head block vs later blocks
        intro b hb c hc
        obtain ⟨t, ht, hct⟩ := List.mem_flatMap.mp hc
        have ht0 : t ≠ 0 := (hprops t (List.mem_cons_of_mem s ht)).1
        have htp : tbl.parent t = q := (hprops t (List.mem_cons_of_mem s ht)).2
        have hst : s ≠ t := by
          intro he
          rw [List.nodup_cons] at hnd
          exact hnd.1 (he ▸ ht)
        have hbblock : b = s ∨ AncOf tbl.parent b s := mem_block hb
        have hcblock : c = t ∨ AncOf tbl.parent c t := mem_block hct
        refine ⟨?_, ?_⟩
        · intro hbc
          refine hst (entry_child_unique tbl.hparent hsp hs0 htp ht0
            (hbblock.imp Eq.symm id) ?_)
          rw [hbc]
          exact hcblock.imp Eq.symm id
        · intro hcb
          -- b is an ancestor of c; then s is an ancestor (or equal) of b,
          -- hence an ancestor of c, while c also descends from t
          have hcs : AncOf tbl.parent c s := by
            rcases hbblock with he | ha
            · exact he ▸ hcb
            · exact hcb.trans ha
          exact hst (entry_child_unique tbl.hparent hsp hs0 htp ht0
            (Or.inr hcs) (hcblock.imp Eq.symm id))

/-- The traversal order is pairwise ordered: no element is repeated,
and no element precedes one of its descendants' positions — children
are always handled before their ancestors, and distinct subtrees do
not interleave ancestors. -/
theorem traversalGo_pairwise (tbl : ClassTable) :
    ∀ fuel q, List.Pairwise (TraversalRel tbl.parent) (traversalGo tbl fuel q) := by
  intro fuel
  induction fuel with
  | zero => intro q; rw [traversalGo]; exact List.Pairwise.nil
  | succ fuel ih =>
      intro q
      rw [traversalGo]
      refine pairwise_blocks tbl fuel q ih (subclassesOf tbl q) ?_ ?_
      · exact (List.nodup_range _).filter _
      · intro s hs
        obtain ⟨_, h0, hp⟩ := mem_subclassesOf.mp hs
        exact ⟨h0, hp⟩

/-! ### Attribute-lookup lemmas -/

/-- The fuel of `getInitGo` is irrelevant once it covers the chain
length (which starting at the class number always does). -/
theorem getInitGo_fuel_stable {parent : Nat → Nat} (hp : ∀ c, c ≠ 0 → parent c < c)
    (m : AttrMap) :
    ∀ c {f1 f2 : Nat}, c ≤ f1 → c ≤ f2 →
      getInitGo parent m c f1 = getInitGo parent m c f2 := by
  intro c
  induction c using Nat.strong_induction_on with
  | _ c ih =>
      intro f1 f2 h1 h2
      cases hm : (m c).initAttr with
      | some f =>
          cases f1 <;> cases f2 <;> simp only [getInitGo, hm]
      | none =>
          by_cases hc : c = 0
          · subst hc
            cases f1 <;> cases f2 <;> simp [getInitGo, hm]
          · obtain ⟨f1', rfl⟩ : ∃ f1', f1 = f1' + 1 := ⟨f1 - 1, by omega⟩
            obtain ⟨f2', rfl⟩ : ∃ f2', f2 = f2' + 1 := ⟨f2 - 1, by omega⟩
            simp only [getInitGo, hm, if_neg hc]
            have hpc := hp c hc
            refine ih (parent c) hpc ?_ ?_ <;> omega

/-- A class with its own `__init__` resolves to it. -/
theorem getInit_own_some {tbl : ClassTable} {m : AttrMap} {c : Nat} {f : InitFn}
    (h : (m c).initAttr = some f) : getInit tbl m c = f := by
  rw [getInit]
  cases c with
  | zero => rw [getInitGo, h]
  | succ n => rw [getInitGo, h]

/-- The root without an own `__init__` resolves to `Module.__init__`. -/
theorem getInit_root {tbl : ClassTable} {m : AttrMap}
    (h : (m 0).initAttr = none) : getInit tbl m 0 = InitFn.moduleInit := by
  rw [getInit, getInitGo, h]

/-- A non-root class without an own `__init__` defers to its parent. -/
theorem getInit_step {tbl : ClassTable} {m : AttrMap} {c : Nat} (hc : c ≠ 0)
    (h : (m c).initAttr = none) :
    getInit tbl m c = getInit tbl m (tbl.parent c) := by
  obtain ⟨c', rfl⟩ : ∃ c', c = c' + 1 := ⟨c - 1, by omega⟩
  have hpc : tbl.parent (c' + 1) < c' + 1 := tbl.hparent _ hc
  have h1 : getInit tbl m (c' + 1) = getInitGo tbl.parent m (tbl.parent (c' + 1)) c' := by
    rw [getInit, getInitGo, h, if_neg hc]
  rw [h1, getInit]
  exact getInitGo_fuel_stable tbl.hparent m _ (by omega) (le_refl _)

/-- `getInit` only depends on the own attributes of the class and its
ancestors. -/
theorem getInit_congr {tbl : ClassTable} {m1 m2 : AttrMap} :
    ∀ c, (∀ y, (y = c ∨ AncOf tbl.parent c y) → m1 y = m2 y) →
      getInit tbl m1 c = getInit tbl m2 c := by
  intro c
  induction c using Nat.strong_induction_on with
  | _ c ih =>
      intro hagree
      have hcc : m1 c = m2 c := hagree c (Or.inl rfl)
      cases hm : (m1 c).initAttr with
      | some f =>
          rw [getInit_own_some hm, getInit_own_some (show (m2 c).initAttr = some f by
            rw [← hcc]; exact hm)]
      | none =>
          by_cases hc : c = 0
          · subst hc
            rw [getInit_root hm, getInit_root (show (m2 0).initAttr = none by
              rw [← hcc]; exact hm)]
          · rw [getInit_step hc hm, getInit_step hc (show (m2 c).initAttr = none by
              rw [← hcc]; exact hm)]
            refine ih _ (tbl.hparent c hc) ?_
            intro y hy
            refine hagree y (Or.inr ?_)
            rcases hy with he | ha
            · exact he ▸ Relation.TransGen.single ⟨hc, rfl⟩
            · exact Relation.TransGen.head ⟨hc, rfl⟩ ha

/-- `getInit` resolves to a clean function when every installed
constructor is clean. -/
theorem getInit_clean {tbl : ClassTable} {m : AttrMap}
    (hclean : ∀ x f, (m x).initAttr = some f → f.isClean = true) :
    ∀ c, (getInit tbl m c).isClean = true := by
  intro c
  induction c using Nat.strong_induction_on with
  | _ c ih =>
      cases hm : (m c).initAttr with
      | some f => rw [getInit_own_some hm]; exact hclean c f hm
      | none =>
          by_cases hc : c = 0
          · subst hc; rw [getInit_root hm]; rfl
          · rw [getInit_step hc hm]
            exact ih _ (tbl.hparent c hc)

/-- Fuel stability for the `_old_init` lookup. -/
theorem getOldInitGo_fuel_stable {parent : Nat → Nat} (hp : ∀ c, c ≠ 0 → parent c < c)
    (m : AttrMap) :
    ∀ c {f1 f2 : Nat}, c ≤ f1 → c ≤ f2 →
      getOldInitGo parent m c f1 = getOldInitGo parent m c f2 := by
  intro c
  induction c using Nat.strong_induction_on with
  | _ c ih =>
      intro f1 f2 h1 h2
      cases hm : (m c).oldInitAttr with
      | some f =>
          cases f1 <;> cases f2 <;> simp only [getOldInitGo, hm]
      | none =>
          by_cases hc : c = 0
          · subst hc
            cases f1 <;> cases f2 <;> simp [getOldInitGo, hm]
          · obtain ⟨f1', rfl⟩ : ∃ f1', f1 = f1' + 1 := ⟨f1 - 1, by omega⟩
            obtain ⟨f2', rfl⟩ : ∃ f2', f2 = f2' + 1 := ⟨f2 - 1, by omega⟩
            simp only [getOldInitGo, hm, if_neg hc]
            have hpc := hp c hc
            refine ih (parent c) hpc ?_ ?_ <;> omega

/-- A class with its own `_old_init` resolves to it. -/
theorem getOldInit_own_some {tbl : ClassTable} {m : AttrMap} {c : Nat} {f : InitFn}
    (h : (m c).oldInitAttr = some f) : getOldInit tbl m c = some f := by
  rw [getOldInit]
  cases c with
  | zero => rw [getOldInitGo, h]
  | succ n => rw [getOldInitGo, h]

/-- The root without an own `_old_init` has none at all. -/
theorem getOldInit_root {tbl : ClassTable} {m : AttrMap}
    (h : (m 0).oldInitAttr = none) : getOldInit tbl m 0 = none := by
  rw [getOldInit, getOldInitGo, h]

/-- A non-root class without an own `_old_init` defers to its parent. -/
theorem getOldInit_step {tbl : ClassTable} {m : AttrMap} {c : Nat} (hc : c ≠ 0)
    (h : (m c).oldInitAttr = none) :
    getOldInit tbl m c = getOldInit tbl m (tbl.parent c) := by
  obtain ⟨c', rfl⟩ : ∃ c', c = c' + 1 := ⟨c - 1, by omega⟩
  have hpc : tbl.parent (c' + 1) < c' + 1 := tbl.hparent _ hc
  have h1 : getOldInit tbl m (c' + 1) = getOldInitGo tbl.parent m (tbl.parent (c' + 1)) c' := by
    rw [getOldInit, getOldInitGo, h, if_neg hc]
  rw [h1, getOldInit]
  exact getOldInitGo_fuel_stable tbl.hparent m _ (by omega) (le_refl _)

/-- `getOldInit` only depends on the `_old_init` fields. -/
theorem getOldInit_congr {tbl : ClassTable} {m1 m2 : AttrMap}
    (h : ∀ y, (m1 y).oldInitAttr = (m2 y).oldInitAttr) :
    ∀ c, getOldInit tbl m1 c = getOldInit tbl m2 c := by
  intro c
  induction c using Nat.strong_induction_on with
  | _ c ih =>
      cases hm : (m1 c).oldInitAttr with
      | some f =>
          rw [getOldInit_own_some hm, getOldInit_own_some (show (m2 c).oldInitAttr = some f by
            rw [← h c]; exact hm)]
      | none =>
          by_cases hc : c = 0
          · subst hc
            rw [getOldInit_root hm, getOldInit_root (show (m2 0).oldInitAttr = none by
              rw [← h 0]; exact hm)]
          · rw [getOldInit_step hc hm, getOldInit_step hc (show (m2 c).oldInitAttr = none by
              rw [← h c]; exact hm)]
            exact ih _ (tbl.hparent c hc)

/-- A class with an ancestor carrying `_old_init` resolves `_old_init`
successfully. -/
theorem getOldInit_isSome_of_anc {tbl : ClassTable} {m : AttrMap} :
    ∀ {c a : Nat}, AncOf tbl.parent c a → ((m a).oldInitAttr).isSome →
      (getOldInit tbl m c).isSome := by
  intro c
  induction c using Nat.strong_induction_on with
  | _ c ih =>
      intro a h ha
      rcases transGen_head_cases h with h1 | ⟨y, hy, h2⟩
      · -- a is the parent of c
        cases hm : (m c).oldInitAttr with
        | some f => rw [getOldInit_own_some hm]; rfl
        | none =>
            rw [getOldInit_step h1.1 hm, h1.2]
            obtain ⟨f, hf⟩ := Option.isSome_iff_exists.mp ha
            rw [getOldInit_own_some hf]
            rfl
      · cases hm : (m c).oldInitAttr with
        | some f => rw [getOldInit_own_some hm]; rfl
        | none =>
            rw [getOldInit_step hy.1 hm, hy.2]
            have hylt : y < c := by
              have := tbl.hparent c hy.1
              rw [hy.2] at this
              exact this
            exact ih y hylt h2 ha

/-- Folding `_enable_class` over a pairwise-ordered list (children
before ancestors, no repeats) wraps every listed class over its
original effective constructor and touches nothing else.  The
bottom-up order is essential: when a class is processed, its ancestors
still hold their original constructors, so the saved `_old_init` is
the pre-entry one. -/
theorem enable_fold_spec (tbl : ClassTable) (m0 : AttrMap) :
    ∀ (l : List Nat) (m : AttrMap),
      (∀ c ∈ l, ∀ y, (y = c ∨ AncOf tbl.parent c y) → m y = m0 y) →
      List.Pairwise (TraversalRel tbl.parent) l →
      (∀ x ∈ l, (l.foldl (fun mm s => _enable_class tbl s mm) m) x =
          enabledAttrs (getInit tbl m0 x)) ∧
      (∀ x, x ∉ l → (l.foldl (fun mm s => _enable_class tbl s mm) m) x = m x) := by
  intro l
  induction l with
  | nil =>
      intro m _ _
      exact ⟨fun x hx => absurd hx (List.not_mem_nil x), fun x _ => rfl⟩
  | cons c l ih =>
      intro m hagree hpw
      obtain ⟨hhead, htail⟩ := List.pairwise_cons.mp hpw
      have hce : getInit tbl m c = getInit tbl m0 c :=
        getInit_congr c (hagree c (List.mem_cons_self c l))
      have hm1 : _enable_class tbl c m = AttrMap.set m c (enabledAttrs (getInit tbl m0 c)) := by
        rw [_enable_class, hce]
        rfl
      have hm1x : ∀ x, x ≠ c → (_enable_class tbl c m) x = m x := by
        intro x hx
        rw [hm1, AttrMap.set, if_neg hx]
      have hm1c : (_enable_class tbl c m) c = enabledAttrs (getInit tbl m0 c) := by
        rw [hm1, AttrMap.set, if_pos rfl]
      have hagree2 : ∀ d ∈ l, ∀ y, (y = d ∨ AncOf tbl.parent d y) →
          (_enable_class tbl c m) y = m0 y := by
        intro d hd y hy
        have hrel := hhead d hd
        have hyne : y ≠ c := by
          rcases hy with he | ha
          · rw [he]; exact fun hdc => hrel.1 hdc.symm
          · intro hyc
            exact hrel.2 (hyc ▸ ha)
        rw [hm1x y hyne]
        exact hagree d (List.mem_cons_of_mem c hd) y hy
      obtain ⟨ihmem, ihnot⟩ := ih (_enable_class tbl c m) hagree2 htail
      have hcnot : c ∉ l := by
        intro hc
        exact (hhead c hc).1 rfl
      constructor
      · intro x hx
        rw [List.foldl_cons]
        rcases List.mem_cons.mp hx with he | hmem
        · rw [he]
          rw [ihnot c hcnot, hm1c]
        · exact ihmem x hmem
      · intro x hx
        rw [List.foldl_cons]
        have hx1 : x ∉ l := fun hc => hx (List.mem_cons_of_mem c hc)
        have hx2 : x ≠ c := fun hc => hx (hc ▸ List.mem_cons_self c l)
        rw [ihnot x hx1, hm1x x hx2]

/-- The attribute table after `__enter__`: every registered strict
descendant of the root is wrapped over its original effective
constructor; the root and unregistered numbers are untouched. -/
theorem interceptorEnter_attrs (w : World) :
    (∀ x, x ≠ 0 → x < w.tbl.count →
      (interceptorEnter w).attrs x = enabledAttrs (getInit w.tbl w.attrs x)) ∧
    (∀ x, (x = 0 ∨ w.tbl.count ≤ x) → (interceptorEnter w).attrs x = w.attrs x) := by
  obtain ⟨hmem, hnot⟩ := enable_fold_spec w.tbl w.attrs (traversalOrder w.tbl 0) w.attrs
    (fun c _ y _ => rfl) (traversalGo_pairwise w.tbl w.tbl.count 0)
  constructor
  · intro x hx0 hxlt
    exact hmem x (mem_traversalOrder hx0 hxlt)
  · intro x hx
    refine hnot x ?_
    intro hmem2
    obtain ⟨hlt, h0, _⟩ := mem_traversalGo hmem2
    rcases hx with he | hge
    · exact h0 he
    · omega

/-! ### Class declarations while the scope is active -/

/-- `declareClass` only writes the fresh class number. -/
theorem declareClass_attrs_lt (w : World) (p : Nat) (b : Bool) :
    ∀ x, x ≠ w.tbl.count → (declareClass w p b).attrs x = w.attrs x := by
  intro x hx
  rw [declareClass]
  by_cases hh : w.hooked <;> simp only [hh, if_pos, if_neg, Bool.false_eq_true] <;>
    simp [AttrMap.set, hx]

/-- The fresh class carries no `_old_init`, wrapped or not. -/
theorem declareClass_old_none (w : World) (p : Nat) (b : Bool) :
    ((declareClass w p b).attrs w.tbl.count).oldInitAttr = none := by
  rw [declareClass]
  by_cases hh : w.hooked <;> simp [hh, AttrMap.set]

/-- `declareClass` adds one class. -/
theorem declareClass_count (w : World) (p : Nat) (b : Bool) :
    (declareClass w p b).tbl.count = w.tbl.count + 1 := rfl

/-- `declareClass` keeps the parents of existing class numbers. -/
theorem declareClass_parent_lt (w : World) (p : Nat) (b : Bool) :
    ∀ x, x ≠ w.tbl.count → (declareClass w p b).tbl.parent x = w.tbl.parent x := by
  intro x hx
  rw [declareClass]
  simp [extendTable, hx]

/-- A run of declarations: the registry only grows, existing class
numbers keep their attributes and parents, and every class number at
or above the entry count carries no `_old_init` (fresh classes are
created without one, and nothing else writes one). -/
theorem declareAll_spec :
    ∀ (decls : List (Nat × Bool)) (w : World),
      w.tbl.count ≤ (declareAll w decls).tbl.count ∧
      (∀ x, x < w.tbl.count → (declareAll w decls).attrs x = w.attrs x) ∧
      (∀ x, x < w.tbl.count → (declareAll w decls).tbl.parent x = w.tbl.parent x) ∧
      ((∀ x, w.tbl.count ≤ x → (w.attrs x).oldInitAttr = none) →
        ∀ x, w.tbl.count ≤ x → ((declareAll w decls).attrs x).oldInitAttr = none) := by
  intro decls
  induction decls with
  | nil =>
      intro w
      exact ⟨le_refl _, fun x _ => rfl, fun x _ => rfl, fun h x hx => h x hx⟩
  | cons d decls ih =>
      intro w
      obtain ⟨p, b⟩ := d
      obtain ⟨ih1, ih2, ih3, ih4⟩ := ih (declareClass w p b)
      rw [declareAll]
      have hcnt : (declareClass w p b).tbl.count = w.tbl.count + 1 := rfl
      refine ⟨by omega, ?_, ?_, ?_⟩
      · intro x hx
        rw [ih2 x (by omega), declareClass_attrs_lt w p b x (by omega)]
      · intro x hx
        rw [ih3 x (by omega), declareClass_parent_lt w p b x (by omega)]
      · intro hpre x hx
        have hpre1 : ∀ y, (declareClass w p b).tbl.count ≤ y →
            ((declareClass w p b).attrs y).oldInitAttr = none := by
          intro y hy
          rw [declareClass_attrs_lt w p b y (by omega)]
          exact hpre y (by omega)
        by_cases hxc : x = w.tbl.count
        · rw [ih2 x (by omega), hxc]
          exact declareClass_old_none w p b
        · exact ih4 hpre1 x (by omega)

/-! ### The disable pass of `__exit__` -/

/-- The disable pass on a list of classes whose `_old_init` lookup
succeeds: it completes, preserves every `_old_init` attribute, sets
the own constructor of every listed class to its resolved `_old_init`,
and touches nothing else. -/
theorem disableFold_spec (tbl : ClassTable) :
    ∀ (l : List Nat) (m : AttrMap),
      (∀ c ∈ l, (getOldInit tbl m c).isSome) →
      ∃ m2, disableFold tbl l m = Except.ok m2 ∧
        (∀ x, (m2 x).oldInitAttr = (m x).oldInitAttr) ∧
        (∀ x ∈ l, (m2 x).initAttr = getOldInit tbl m x) ∧
        (∀ x, x ∉ l → (m2 x).initAttr = (m x).initAttr) := by
  intro l
  induction l with
  | nil =>
      intro m _
      exact ⟨m, rfl, fun x => rfl, fun x hx => absurd hx (List.not_mem_nil x),
             fun x _ => rfl⟩
  | cons c l ih =>
      intro m hsome
      obtain ⟨f, hf⟩ := Option.isSome_iff_exists.mp (hsome c (List.mem_cons_self c l))
      have hstep : _disable_class tbl c m =
          Except.ok (AttrMap.set m c { initAttr := some f, oldInitAttr := (m c).oldInitAttr }) := by
        rw [_disable_class, hf]
      have hold1 : ∀ y,
          ((AttrMap.set m c { initAttr := some f, oldInitAttr := (m c).oldInitAttr }) y).oldInitAttr
            = (m y).oldInitAttr := by
        intro y
        rw [AttrMap.set]
        by_cases hy : y = c
        · rw [if_pos hy, hy]
        · rw [if_neg hy]
      have ho45 : ∀ d, getOldInit tbl
          (AttrMap.set m c { initAttr := some f, oldInitAttr := (m c).oldInitAttr }) d =
          getOldInit tbl m d := getOldInit_congr hold1
      have hsome1 : ∀ d ∈ l, (getOldInit tbl
          (AttrMap.set m c { initAttr := some f, oldInitAttr := (m c).oldInitAttr }) d).isSome := by
        intro d hd
        rw [ho45 d]
        exact hsome d (List.mem_cons_of_mem c hd)
      obtain ⟨m2, hok, hold2, hmem2, hnot2⟩ :=
        ih (AttrMap.set m c { initAttr := some f, oldInitAttr := (m c).oldInitAttr }) hsome1
      refine ⟨m2, ?_, ?_, ?_, ?_⟩
      · rw [disableFold, hstep]
        exact hok
      · intro x
        rw [hold2 x, hold1 x]
      · intro x hx
        rcases List.mem_cons.mp hx with he | hmem
        · by_cases hxl : x ∈ l
          · rw [hmem2 x hxl, ho45 x]
          · rw [hnot2 x hxl, he, AttrMap.set, if_pos rfl, hf]
        · rw [hmem2 x hmem, ho45 x]
      · intro x hx
        have hx1 : x ∉ l := fun hc => hx (List.mem_cons_of_mem c hc)
        have hx2 : x ≠ c := fun hc => hx (hc ▸ List.mem_cons_self c l)
        rw [hnot2 x hx1, AttrMap.set, if_neg hx2]

/-- Resolving `_old_init` from a class declared during the scope walks
up to the nearest ancestor that existed at entry and yields that
ancestor's original constructor. -/
theorem getOldInit_declared_resolves (tbl2 : ClassTable) (attrs2 : AttrMap)
    (tbl0count : Nat) (orig : Nat → InitFn) (h0 : 0 < tbl0count)
    (hold_entry : ∀ x, x ≠ 0 → x < tbl0count → (attrs2 x).oldInitAttr = some (orig x))
    (hold_hi : ∀ x, tbl0count ≤ x → (attrs2 x).oldInitAttr = none)
    (hold_root : (attrs2 0).oldInitAttr = none) :
    ∀ c, tbl0count ≤ c → (getOldInit tbl2 attrs2 c).isSome →
      ∃ a, a ≠ 0 ∧ a < tbl0count ∧ AncOf tbl2.parent c a ∧
        getOldInit tbl2 attrs2 c = some (orig a) := by
  intro c
  induction c using Nat.strong_induction_on with
  | _ c ih =>
      intro hc hsome
      have hc0 : c ≠ 0 := by omega
      have hstep := @getOldInit_step tbl2 attrs2 c hc0 (hold_hi c hc)
      have hplt : tbl2.parent c < c := tbl2.hparent c hc0
      by_cases hp0 : tbl2.parent c = 0
      · rw [hstep, hp0, getOldInit_root hold_root] at hsome
        simp at hsome
      · by_cases hplow : tbl2.parent c < tbl0count
        · refine ⟨tbl2.parent c, hp0, hplow, Relation.TransGen.single ⟨hc0, rfl⟩, ?_⟩
          rw [hstep, getOldInit_own_some (hold_entry _ hp0 hplow)]
        · push_neg at hplow
          obtain ⟨a, ha0, halt, hanc, heq⟩ := ih _ hplt hplow (hstep ▸ hsome)
          exact ⟨a, ha0, halt, Relation.TransGen.head ⟨hc0, rfl⟩ hanc, by rw [hstep, heq]⟩

/-- Claim C2, amended: run the scope on an entry hierarchy whose
installed constructors are clean and carry no stale `_old_init`, with
any list of class declarations made while the scope is active.
Provided every declared class has an ancestor other than the root that
existed at entry, `__exit__` completes (identically on the normal and
the exceptional exit path), every class present at entry gets exactly
its original effective constructor back, every class declared during
the scope instead receives the original constructor of one of its
entry-time ancestors — not the constructor its own body defined — and
no wrapped constructor remains installed anywhere. -/
theorem claimC2_exit_restores (tbl0 : ClassTable) (m0 : AttrMap)
    (decls : List (Nat × Bool)) (h0 : 0 < tbl0.count)
    (hclean : ∀ x f, (m0 x).initAttr = some f → f.isClean = true)
    (hnoold : ∀ x, (m0 x).oldInitAttr = none)
    (hreach : ∀ c, tbl0.count ≤ c →
        c < (declareAll (interceptorEnter ⟨tbl0, m0, false⟩) decls).tbl.count →
        ∃ a, a ≠ 0 ∧ a < tbl0.count ∧
          AncOf (declareAll (interceptorEnter ⟨tbl0, m0, false⟩) decls).tbl.parent c a) :
    ∃ w3, interceptorExit (declareAll (interceptorEnter ⟨tbl0, m0, false⟩) decls) =
        Except.ok w3 ∧
      (∀ c, c ≠ 0 → c < tbl0.count → getInit w3.tbl w3.attrs c = getInit tbl0 m0 c) ∧
      getInit w3.tbl w3.attrs 0 = getInit tbl0 m0 0 ∧
      (∀ c, tbl0.count ≤ c → c < w3.tbl.count →
        ∃ a, a ≠ 0 ∧ a < tbl0.count ∧ AncOf w3.tbl.parent c a ∧
          getInit w3.tbl w3.attrs c = getInit tbl0 m0 a) ∧
      (∀ c, c < w3.tbl.count → (getInit w3.tbl w3.attrs c).isClean = true) := by
  obtain ⟨he1, he2⟩ := interceptorEnter_attrs ⟨tbl0, m0, false⟩
  obtain ⟨hd1, hd2, hd3, hd4⟩ :=
    declareAll_spec decls (interceptorEnter ⟨tbl0, m0, false⟩)
  have hw1tbl : (interceptorEnter ⟨tbl0, m0, false⟩).tbl = tbl0 := rfl
  rw [hw1tbl] at hd1 hd2 hd3 hd4
  -- the world after the declarations
  have hold_entry : ∀ x, x ≠ 0 → x < tbl0.count →
      ((declareAll (interceptorEnter ⟨tbl0, m0, false⟩) decls).attrs x).oldInitAttr =
        some (getInit tbl0 m0 x) := by
    intro x hx0 hxlt
    rw [hd2 x hxlt, he1 x hx0 hxlt]
    rfl
  have hold_hi : ∀ x, tbl0.count ≤ x →
      ((declareAll (interceptorEnter ⟨tbl0, m0, false⟩) decls).attrs x).oldInitAttr = none := by
    refine hd4 ?_
    intro x hx
    rw [he2 x (Or.inr hx)]
    exact hnoold x
  have hold_root :
      ((declareAll (interceptorEnter ⟨tbl0, m0, false⟩) decls).attrs 0).oldInitAttr = none := by
    rw [hd2 0 h0, he2 0 (Or.inl rfl)]
    exact hnoold 0
  have hinit_root :
      ((declareAll (interceptorEnter ⟨tbl0, m0, false⟩) decls).attrs 0).initAttr =
        (m0 0).initAttr := by
    rw [hd2 0 h0, he2 0 (Or.inl rfl)]
  have hsome : ∀ c ∈ traversalOrder
      (declareAll (interceptorEnter ⟨tbl0, m0, false⟩) decls).tbl 0,
      (getOldInit (declareAll (interceptorEnter ⟨tbl0, m0, false⟩) decls).tbl
        (declareAll (interceptorEnter ⟨tbl0, m0, false⟩) decls).attrs c).isSome := by
    intro c hmem
    obtain ⟨hclt, hc0, -⟩ := mem_traversalGo hmem
    by_cases hlow : c < tbl0.count
    · rw [getOldInit_own_some (hold_entry c hc0 hlow)]
      rfl
    · push_neg at hlow
      obtain ⟨a, ha0, halt, hanc⟩ := hreach c hlow hclt
      exact getOldInit_isSome_of_anc hanc
        (by rw [hold_entry a ha0 halt]; rfl)
  obtain ⟨m3, hok, hold3, hmem3, hnot3⟩ :=
    disableFold_spec (declareAll (interceptorEnter ⟨tbl0, m0, false⟩) decls).tbl
      (traversalOrder (declareAll (interceptorEnter ⟨tbl0, m0, false⟩) decls).tbl 0)
      (declareAll (interceptorEnter ⟨tbl0, m0, false⟩) decls).attrs hsome
  refine ⟨⟨(declareAll (interceptorEnter ⟨tbl0, m0, false⟩) decls).tbl, m3, false⟩, ?_,
    ?_, ?_, ?_, ?_⟩
  · rw [interceptorExit, hok]
    rfl
  · -- entry classes get their original constructor back
    intro c hc0 hclt
    have hmem : c ∈ traversalOrder
        (declareAll (interceptorEnter ⟨tbl0, m0, false⟩) decls).tbl 0 :=
      mem_traversalOrder hc0 (by omega)
    have hres : (m3 c).initAttr = some (getInit tbl0 m0 c) := by
      rw [hmem3 c hmem, getOldInit_own_some (hold_entry c hc0 hclt)]
    exact getInit_own_some hres
  · -- the root class is untouched
    have h0mem : (0 : Nat) ∉ traversalOrder
        (declareAll (interceptorEnter ⟨tbl0, m0, false⟩) decls).tbl 0 := by
      intro hmem
      exact (mem_traversalGo hmem).2.1 rfl
    have hinit : (m3 0).initAttr = (m0 0).initAttr := by
      rw [hnot3 0 h0mem, hinit_root]
    cases hm : (m0 0).initAttr with
    | some f =>
        rw [getInit_own_some (show (m3 0).initAttr = some f by rw [hinit, hm]),
            getInit_own_some hm]
    | none =>
        rw [getInit_root (show (m3 0).initAttr = none by rw [hinit, hm]),
            getInit_root hm]
  · -- declared classes receive an entry ancestor's original constructor
    intro c hclow hclt
    have hc0 : c ≠ 0 := by omega
    have hmem : c ∈ traversalOrder
        (declareAll (interceptorEnter ⟨tbl0, m0, false⟩) decls).tbl 0 :=
      mem_traversalOrder hc0 hclt
    obtain ⟨a, ha0, halt, hanc, heq⟩ :=
      getOldInit_declared_resolves _ _ tbl0.count (fun x => getInit tbl0 m0 x) h0
        hold_entry hold_hi hold_root c hclow (hsome c hmem)
    refine ⟨a, ha0, halt, hanc, ?_⟩
    refine getInit_own_some ?_
    rw [hmem3 c hmem, heq]
  · -- no wrapped constructor anywhere after exit
    intro c hclt
    by_cases hc0 : c = 0
    · subst hc0
      have h0mem : (0 : Nat) ∉ traversalOrder
          (declareAll (interceptorEnter ⟨tbl0, m0, false⟩) decls).tbl 0 := by
        intro hmem
        exact (mem_traversalGo hmem).2.1 rfl
      have hinit : (m3 0).initAttr = (m0 0).initAttr := by
        rw [hnot3 0 h0mem, hinit_root]
      cases hm : (m0 0).initAttr with
      | some f =>
          rw [getInit_own_some (show (m3 0).initAttr = some f by rw [hinit, hm])]
          exact hclean 0 f hm
      | none =>
          rw [getInit_root (show (m3 0).initAttr = none by rw [hinit, hm])]
          rfl
    · by_cases hlow : c < tbl0.count
      · have hmem : c ∈ traversalOrder
            (declareAll (interceptorEnter ⟨tbl0, m0, false⟩) decls).tbl 0 :=
          mem_traversalOrder hc0 hclt
        have hres : (m3 c).initAttr = some (getInit tbl0 m0 c) := by
          rw [hmem3 c hmem, getOldInit_own_some (hold_entry c hc0 hlow)]
        rw [getInit_own_some hres]
        exact getInit_clean hclean c
      · push_neg at hlow
        have hmem : c ∈ traversalOrder
            (declareAll (interceptorEnter ⟨tbl0, m0, false⟩) decls).tbl 0 :=
          mem_traversalOrder hc0 hclt
        obtain ⟨a, ha0, halt, hanc, heq⟩ :=
          getOldInit_declared_resolves _ _ tbl0.count (fun x => getInit tbl0 m0 x) h0
            hold_entry hold_hi hold_root c hlow (hsome c hmem)
        have hres : (m3 c).initAttr = some (getInit tbl0 m0 a) := by
          rw [hmem3 c hmem, heq]
        rw [getInit_own_some hres]
        exact getInit_clean hclean a

/-- Claim C2 is false as stated: class 2, declared while the scope is
active with its own constructor (`defInit 2`, as the un-hooked
declaration shows), ends up after `__exit__` with class 1's original
constructor instead — `__init_subclass__` never saved an `_old_init`
for it, so `_disable_class` resolves `cls._old_init` up the MRO to the
parent's saved constructor. -/
theorem claimC2_counterexample :
    (declareClass demoEntryWorld 1 true).attrs 2 =
      { initAttr := some (InitFn.defInit 2), oldInitAttr := none } ∧
    (match interceptorExit demoScopeWorld with
     | Except.ok w => getInit w.tbl w.attrs 2
     | Except.error _ => InitFn.moduleInit) = InitFn.defInit 1 ∧
    InitFn.defInit 1 ≠ InitFn.defInit 2 := by
  decide

/-- Witness for the amended claim C2 at the concrete scenario of the
counterexample: the exit completes, class 1 gets `defInit 1` back, the
root keeps `Module.__init__`, the declared class 2 receives an entry
ancestor's original constructor, and no wrapped constructor remains. -/
theorem claimC2_exit_restores_witness :
    ∃ w3, interceptorExit
        (declareAll (interceptorEnter ⟨demoClassTable, demoClassAttrs, false⟩) [(1, true)]) =
        Except.ok w3 ∧
      (∀ c, c ≠ 0 → c < demoClassTable.count →
        getInit w3.tbl w3.attrs c = getInit demoClassTable demoClassAttrs c) ∧
      getInit w3.tbl w3.attrs 0 = getInit demoClassTable demoClassAttrs 0 ∧
      (∀ c, demoClassTable.count ≤ c → c < w3.tbl.count →
        ∃ a, a ≠ 0 ∧ a < demoClassTable.count ∧ AncOf w3.tbl.parent c a ∧
          getInit w3.tbl w3.attrs c = getInit demoClassTable demoClassAttrs a) ∧
      (∀ c, c < w3.tbl.count → (getInit w3.tbl w3.attrs c).isClean = true) := by
  refine claimC2_exit_restores demoClassTable demoClassAttrs [(1, true)] (by decide)
    ?_ ?_ ?_
  · intro x f h
    rw [demoClassAttrs] at h
    by_cases h0 : x = 0
    · simp [h0] at h
      rw [← h]
      rfl
    · by_cases h1 : x = 1
      · simp [h0, h1] at h
        rw [← h]
        rfl
      · simp [h0, h1] at h
  · intro x
    rw [demoClassAttrs]
    by_cases h0 : x = 0
    · simp [h0]
    · by_cases h1 : x = 1 <;> simp [h0, h1]
  · intro c h1 h2
    have hcnt : (declareAll (interceptorEnter ⟨demoClassTable, demoClassAttrs, false⟩)
        [(1, true)]).tbl.count = 3 := rfl
    rw [hcnt] at h2
    have hc2 : c = 2 := by
      have : demoClassTable.count = 2 := rfl
      omega
    subst hc2
    exact ⟨1, by decide, by decide, Relation.TransGen.single ⟨by decide, rfl⟩⟩

end ColossalAI

